import Mathlib

/-!
# Formal model of the `hambosto/passmanager` encrypted-vault core

A shallow embedding, in Lean 4, of the storage engine and TOTP engine of the
password manager:

* the cipher module (`crypto.Encrypt` / `crypto.Decrypt`, AES-256-GCM),
* the key-derivation module (`crypto.DefaultKeyDerivationParams`,
  `crypto.DeriveKey`, `crypto.MarshalParams` / `crypto.UnmarshalParams`),
* the vault container codec and the atomic file persistence
  (`storage.FileRepository.Save` / `.Load` / `.LoadParams`),
* the unlock flows (`service.VaultServiceImpl.UnlockVault` and
  `tui.App.unlockVault`),
* the TOTP engine (`totp.Config.GenerateCodeAt`, `.generateHOTP`,
  `.ValidateAt`, `ParseURI`, `.ToURI`) including bit-exact SHA-1 / SHA-256 /
  SHA-512, HMAC and Base32.

Go byte strings are modelled as `List Nat` (one `Nat` per byte); machine
integers are `Nat`/`Int` with explicit reductions modulo `2 ^ 32` / `2 ^ 64`
where the Go code truncates.  Go functions that can fail return `Option` or
`Sum`; a Go runtime panic (integer division by zero) is a distinguished
outcome of the `GoRes` type, separate from an ordinary returned error.

External library primitives that the repository calls but does not define
(AES-GCM from `crypto/cipher`, Argon2id from `golang.org/x/crypto/argon2`,
JSON from `encoding/json`) are modelled symbolically from the specification;
each such definition is marked with a doc comment starting
`Modelled from the spec:`.  Everything else is translated directly from the
repository sources.
-/

namespace PassManager

/-- Go byte strings are lists of byte values. -/
abbrev Bytes := List Nat

/-- The bytes of an ASCII string literal (each char code is the byte value). -/
def bytesOfAscii (s : String) : Bytes :=
  s.data.map (fun c => c.toNat)

/-- Result of a Go call that can return normally, return an error, or panic
at runtime.  A panic (here: integer division by zero) is distinct from a
returned error value. -/
inductive GoRes (α : Type) where
  | panic : GoRes α
  | err : GoRes α
  | ok : α → GoRes α
deriving DecidableEq, Repr

/-! ## Little-endian 32-bit encoding (`encoding/binary`, little-endian) -/

/-- `binary.Write(buf, binary.LittleEndian, x)` for a `uint32`:
the four little-endian bytes of `x mod 2^32`. -/
def le32enc (n : Nat) : Bytes :=
  [n % 256, n / 256 % 256, n / 65536 % 256, n / 16777216 % 256]

/-- `binary.Read(buf, binary.LittleEndian, &x)` for a `uint32`:
recombine four little-endian bytes. -/
def le32dec (bs : Bytes) : Nat :=
  bs.getD 0 0 + 256 * bs.getD 1 0 + 65536 * bs.getD 2 0 + 16777216 * bs.getD 3 0

/-! ## Cipher module (`internal/infrastructure/crypto`, AES-256-GCM)

The repository calls Go's `crypto/aes` + `crypto/cipher` GCM implementation,
which is not part of the repository. -/

/-- `gcm.NonceSize()` — 96-bit nonce. -/
def gcmNonceSize : Nat := 12

/-- Modelled from the spec: `gcm.Seal` of Go's `crypto/cipher` (library code,
not in the repository).  Idealized AEAD: the sealed blob is the plaintext
with authentication data appended, and opening succeeds exactly when the key
and nonce match (the spec: "any tampering, truncation, or wrong key produces
a single generic `DecryptionFailed` error"). -/
def gcmSeal (key nonce plaintext : Bytes) : Bytes :=
  plaintext ++ key ++ nonce

/-- Modelled from the spec: `gcm.Open` of Go's `crypto/cipher` (library code,
not in the repository).  Succeeds exactly when the trailing authentication
data was produced by `gcmSeal` under the same key and nonce. -/
def gcmOpen (key nonce data : Bytes) : Option Bytes :=
  if key.length + nonce.length ≤ data.length ∧
      data.drop (data.length - (key.length + nonce.length)) = key ++ nonce then
    some (data.take (data.length - (key.length + nonce.length)))
  else
    none

/-- `crypto.Encrypt(plaintext, key)`.  The fresh random nonce drawn from
`crypto/rand` inside the Go function is passed explicitly as `nonce`.
Returns `none` on the `invalid key size` error path. -/
def Encrypt (plaintext key nonce : Bytes) : Option Bytes :=
  if key.length ≠ 32 then none
  else some (nonce ++ gcmSeal key nonce plaintext)

/-- `crypto.Decrypt(encrypted, key)`.  Returns `none` on the
`invalid key size`, `ciphertext too short` and `decryption failed` paths. -/
def Decrypt (encrypted key : Bytes) : Option Bytes :=
  if key.length ≠ 32 then none
  else if encrypted.length < gcmNonceSize then none
  else gcmOpen key (encrypted.take gcmNonceSize) (encrypted.drop gcmNonceSize)

/-! ## Key-derivation module (`internal/infrastructure/crypto`) -/

/-- `crypto.KeyDerivationParams` — parameters for Argon2id key derivation. -/
structure KeyDerivationParams where
  Algorithm : Bytes
  Iterations : Nat
  Memory : Nat
  Parallelism : Nat
  Salt : Bytes
  KeyLength : Nat
deriving DecidableEq, Repr

/-- `crypto.DefaultKeyDerivationParams()`.  The 32-byte random salt drawn
from `crypto/rand` inside the Go function is passed explicitly as `salt`. -/
def DefaultKeyDerivationParams (salt : Bytes) : KeyDerivationParams :=
  { Algorithm := bytesOfAscii "argon2id"
    Iterations := 3
    Memory := 64 * 1024
    Parallelism := 4
    Salt := salt
    KeyLength := 32 }

/-- Injective numeric code of a byte list (all entries `< 256`): base-257
digits shifted by one so that no code ends in a zero digit. -/
def encB : Bytes → Nat
  | [] => 0
  | b :: l => (b + 1) + 257 * encB l

/-- Modelled from the spec: `crypto.DeriveKey` calls Argon2id from
`golang.org/x/crypto/argon2` (library code, not in the repository).  The
spec: "pure, deterministic given identical inputs", producing a 32-byte key
that depends on the password and the whole parameter set; an ideal KDF, so
distinct salts yield distinct keys.  The model packs the inputs injectively
into a 32-entry key. -/
def DeriveKey (masterPassword : Bytes) (params : KeyDerivationParams) : Bytes :=
  [encB masterPassword, encB params.Salt, encB params.Algorithm,
    params.Iterations, params.Memory, params.Parallelism] ++
    List.replicate 26 params.KeyLength

/-- Modelled from the spec: `crypto.MarshalParams` serializes the parameter
record with `encoding/json` (library code, not in the repository).  The
spec only requires a structured, self-describing encoding that "round-trips
exactly"; the model uses a length-prefixed field-by-field record:
`[|alg|, alg..., iterations, memory, parallelism, |salt|, salt..., keyLen]`. -/
def MarshalParams (p : KeyDerivationParams) : Bytes :=
  p.Algorithm.length :: p.Algorithm ++
    p.Iterations :: p.Memory :: p.Parallelism :: p.Salt.length :: p.Salt ++
    [p.KeyLength]

/-- Modelled from the spec: `crypto.UnmarshalParams` — inverse of
`MarshalParams`, failing on any blob that is not a parameter record. -/
def UnmarshalParams (data : Bytes) : Option KeyDerivationParams :=
  match data with
  | la :: rest =>
      match rest.drop la with
      | i :: m :: par :: ls :: r2 =>
          match r2.drop ls with
          | [k] =>
              some { Algorithm := rest.take la, Iterations := i, Memory := m,
                     Parallelism := par, Salt := r2.take ls, KeyLength := k }
          | _ => none
      | _ => none
  | _ => none

/-! ## Vault container codec (`internal/infrastructure/storage`)

`FileRepository.Save` builds the on-disk byte buffer; `Load` and
`LoadParams` parse it.  The vault's decrypted payload is its JSON
serialization; the model identifies a vault with its serialized bytes
(the JSON layer of `encoding/json` is not repository code, and no claim
depends on the vault's internal structure). -/

/-- `storage.VaultHeader = "PMVAULT1"` as bytes. -/
def VaultHeader : Bytes := bytesOfAscii "PMVAULT1"

/-- `storage.VaultVersion = uint32(1)`. -/
def VaultVersion : Nat := 1

/-- The buffer built by `FileRepository.Save`:
`[Header: 8][Version: 4 LE][KDF params length: 4 LE][KDF params][Encrypted]`.
`paramsLen` is `uint32(len(paramsJSON))`, truncated modulo `2^32` as in Go. -/
def encodeVaultFile (paramsJSON encrypted : Bytes) : Bytes :=
  VaultHeader ++ le32enc VaultVersion ++ le32enc paramsJSON.length ++
    paramsJSON ++ encrypted

/-- The failure cases of `FileRepository.Load` / `LoadParams`, in source
order. -/
inductive LoadErr where
  | tooSmall
  | badHeader
  | badVersion
  | paramsTooShort
  | paramsUnmarshal
  | decryptFailed
deriving DecidableEq, Repr

/-- The parsing half of `FileRepository.Load`: minimum size, header match,
version match, params-length bound; returns the raw KDF-parameter blob and
the remaining (encrypted) bytes. -/
def decodeVaultFile (data : Bytes) : Sum LoadErr (Bytes × Bytes) :=
  if data.length < VaultHeader.length + 4 + 4 then .inl .tooSmall
  else if data.take VaultHeader.length ≠ VaultHeader then .inl .badHeader
  else
    let d1 := data.drop VaultHeader.length
    if le32dec (d1.take 4) ≠ VaultVersion then .inl .badVersion
    else
      let d2 := d1.drop 4
      let paramsLen := le32dec (d2.take 4)
      let d3 := d2.drop 4
      if d3.length < paramsLen then .inl .paramsTooShort
      else .inr (d3.take paramsLen, d3.drop paramsLen)

/-- `FileRepository.Load(key)` on the file contents `data`: parse the
container, unmarshal the KDF-parameter blob (result unused — the key is
already derived), then decrypt the payload.  The decrypted vault is its
serialized bytes. -/
def load (data key : Bytes) : Sum LoadErr Bytes :=
  match decodeVaultFile data with
  | .inl e => .inl e
  | .inr (paramsJSON, encrypted) =>
      match UnmarshalParams paramsJSON with
      | none => .inl .paramsUnmarshal
      | some _ =>
          match Decrypt encrypted key with
          | none => .inl .decryptFailed
          | some plain => .inr plain

/-- `FileRepository.LoadParams()` on the file contents `data`: checks the
minimum size, then *skips* the header and version fields without validating
them, reads the params length, bounds-checks it and unmarshals the blob.
No key is taken and no decryption is attempted. -/
def LoadParams (data : Bytes) : Sum LoadErr KeyDerivationParams :=
  if data.length < VaultHeader.length + 4 + 4 then .inl .tooSmall
  else
    let d1 := data.drop VaultHeader.length
    let d2 := d1.drop 4
    let paramsLen := le32dec (d2.take 4)
    let d3 := d2.drop 4
    if d3.length < paramsLen then .inl .paramsTooShort
    else
      match UnmarshalParams (d3.take paramsLen) with
      | none => .inl .paramsUnmarshal
      | some p => .inr p

/-! ## Unlock flows

Two distinct unlock implementations exist in the repository:

* `service.VaultServiceImpl.UnlockVault` (domain service layer) calls
  `crypto.DefaultKeyDerivationParams()` — generating a *fresh random salt* —
  and derives the key from those fresh defaults;
* `tui.App.unlockVault` (presentation layer, the one reached from the UI)
  calls `repository.LoadParams()` and derives the key from the parameters
  stored in the file.

Both are embedded verbatim. -/

/-- `service.VaultServiceImpl.UnlockVault(masterPassword)` acting on the
file contents `data`.  The fresh random salt generated inside
`DefaultKeyDerivationParams` is passed explicitly as `freshSalt`. -/
def serviceUnlockVault (data masterPassword freshSalt : Bytes) :
    Sum LoadErr Bytes :=
  let params := DefaultKeyDerivationParams freshSalt
  let key := DeriveKey masterPassword params
  load data key

/-- `tui.App.unlockVault(password)` acting on the file contents `data`:
load the KDF params from the vault file, derive the key with the *same*
parameters used during vault creation, then load. -/
def appUnlockVault (data password : Bytes) : Sum LoadErr Bytes :=
  match LoadParams data with
  | .inl e => .inl e
  | .inr params => load data (DeriveKey password params)

/-! ## Atomic file persistence (`FileRepository.Save`, I/O half)

A file system is a map from paths (byte strings) to file contents.  The
I/O tail of `Save` writes the whole buffer to the sibling temporary file
`path + ".tmp"` and then renames it over `path`; on rename failure the
temporary file is removed and the error surfaced.  `renameOk` injects a
rename failure (`os.Rename` error); directory creation and the temp-file
write error path leave the target untouched and are not further modelled. -/

/-- `os.WriteFile(p, c, 0600)`: atomic whole-buffer write in this model. -/
def fsWrite (fs : Bytes → Option Bytes) (p : Bytes) (c : Bytes) :
    Bytes → Option Bytes :=
  fun q => if q = p then some c else fs q

/-- `os.Remove(p)`. -/
def fsRemove (fs : Bytes → Option Bytes) (p : Bytes) : Bytes → Option Bytes :=
  fun q => if q = p then none else fs q

/-- `os.Rename(src, dst)` (success case): the content of `src` becomes
visible at `dst` in one step and `src` disappears. -/
def fsRename (fs : Bytes → Option Bytes) (src dst : Bytes) :
    Bytes → Option Bytes :=
  fun q => if q = dst then fs src else if q = src then none else fs q

/-- The temp path `r.path + ".tmp"`. -/
def tempPathOf (path : Bytes) : Bytes := path ++ bytesOfAscii ".tmp"

/-- The I/O tail of `FileRepository.Save`: write the complete buffer `buf`
to the temp file, then rename it over `path`.  If the rename fails
(`renameOk = false`), remove the temp file and surface the error. -/
def saveToDisk (fs : Bytes → Option Bytes) (path buf : Bytes)
    (renameOk : Bool) : (Bytes → Option Bytes) × Bool :=
  let tempPath := tempPathOf path
  let fs1 := fsWrite fs tempPath buf
  if renameOk then (fsRename fs1 tempPath path, true)
  else (fsRemove fs1 tempPath, false)

/-- The successive file-system states observable during `saveToDisk`, in
execution order: initial, after the temp-file write, final. -/
def saveStates (fs : Bytes → Option Bytes) (path buf : Bytes)
    (renameOk : Bool) : List (Bytes → Option Bytes) :=
  [fs, fsWrite fs (tempPathOf path) buf, (saveToDisk fs path buf renameOk).1]

/-! ## Hash primitives (`crypto/sha1`, `crypto/sha256`, `crypto/sha512`)

The TOTP engine calls Go's hash implementations.  These are fixed public
algorithms (FIPS 180-4); they are implemented here bit-exactly over `Nat`
with explicit reductions modulo `2 ^ 32` / `2 ^ 64`. -/

/-- Reduce to a 32-bit word. -/
def w32 (n : Nat) : Nat := n % 4294967296

/-- Reduce to a 64-bit word. -/
def w64 (n : Nat) : Nat := n % 18446744073709551616

/-- Rotate a 32-bit word left by `s` (for `0 < s < 32`, inputs `< 2^32`). -/
def rotl32 (n s : Nat) : Nat := n * 2 ^ s % 4294967296 + n % 4294967296 / 2 ^ (32 - s)

/-- Rotate a 32-bit word right by `s`. -/
def rotr32 (n s : Nat) : Nat := rotl32 n (32 - s)

/-- Rotate a 64-bit word right by `s`. -/
def rotr64 (n s : Nat) : Nat :=
  n * 2 ^ (64 - s) % 18446744073709551616 + n % 18446744073709551616 / 2 ^ s

/-- The `k` big-endian bytes of `n` (most significant first). -/
def beBytes (k n : Nat) : Bytes :=
  (List.range k).map (fun i => n / 2 ^ (8 * (k - 1 - i)) % 256)

/-- Group a list into consecutive chunks of size `n` (`0 < n`); structural
recursion on a fuel argument (sufficient whenever `fuel ≥ l.length`). -/
def chunksOfAux (n : Nat) : Nat → List α → List (List α)
  | 0, _ => []
  | _, [] => []
  | fuel + 1, x :: rest => (x :: rest).take n :: chunksOfAux n fuel ((x :: rest).drop n)

/-- Group a list into consecutive chunks of size `n` (`0 < n`). -/
def chunksOf (n : Nat) (l : List α) : List (List α) := chunksOfAux n l.length l

/-- Merkle–Damgård padding: append `0x80`, zero bytes to `lenField` short of
a multiple of `block`, then the message bit length as a `lenField`-byte
big-endian integer. -/
def mdPad (msg : Bytes) (block lenField : Nat) : Bytes :=
  let zeros := (block - (msg.length + 1 + lenField) % block) % block
  msg ++ 128 :: List.replicate zeros 0 ++ beBytes lenField (8 * msg.length)

/-- Big-endian 32-bit words from bytes. -/
def bytesToWords32 : Bytes → List Nat
  | a :: b :: c :: d :: rest =>
      (a * 16777216 + b * 65536 + c * 256 + d) :: bytesToWords32 rest
  | _ => []

/-- Big-endian 64-bit words from bytes. -/
def bytesToWords64 : Bytes → List Nat
  | b0 :: b1 :: b2 :: b3 :: b4 :: b5 :: b6 :: b7 :: rest =>
      (((((((b0 * 256 + b1) * 256 + b2) * 256 + b3) * 256 + b4) * 256 + b5) *
        256 + b6) * 256 + b7) :: bytesToWords64 rest
  | _ => []

/-- SHA-1 round function. -/
def sha1F (i b c d : Nat) : Nat :=
  if i < 20 then b &&& c ||| (4294967295 ^^^ b) &&& d
  else if i < 40 then b ^^^ c ^^^ d
  else if i < 60 then b &&& c ||| b &&& d ||| c &&& d
  else b ^^^ c ^^^ d

/-- SHA-1 round constants. -/
def sha1KC (i : Nat) : Nat :=
  if i < 20 then 1518500249
  else if i < 40 then 1859775393
  else if i < 60 then 2400959708
  else 3395469782

/-- Extend the 16-word SHA-1 message schedule by `n` further words. -/
def sha1Extend (ws : List Nat) : Nat → List Nat
  | 0 => ws
  | n + 1 =>
      let len := ws.length
      let w := rotl32 (ws.getD (len - 3) 0 ^^^ ws.getD (len - 8) 0 ^^^
        ws.getD (len - 14) 0 ^^^ ws.getD (len - 16) 0) 1
      sha1Extend (ws ++ [w]) n

/-- One SHA-1 round on the five working registers. -/
def sha1Step (st : Nat × Nat × Nat × Nat × Nat) (iw : Nat × Nat) :
    Nat × Nat × Nat × Nat × Nat :=
  let (a, b, c, d, e) := st
  let tmp := w32 (rotl32 a 5 + sha1F iw.1 b c d + e + sha1KC iw.1 + iw.2)
  (tmp, a, rotl32 b 30, c, d)

/-- SHA-1 compression of one 64-byte chunk into the running digest. -/
def sha1Compress (h : List Nat) (chunk : Bytes) : List Nat :=
  let ws := sha1Extend (bytesToWords32 chunk) 64
  let st := ws.enum.foldl sha1Step
    (h.getD 0 0, h.getD 1 0, h.getD 2 0, h.getD 3 0, h.getD 4 0)
  [w32 (h.getD 0 0 + st.1), w32 (h.getD 1 0 + st.2.1),
    w32 (h.getD 2 0 + st.2.2.1), w32 (h.getD 3 0 + st.2.2.2.1),
    w32 (h.getD 4 0 + st.2.2.2.2)]

/-- SHA-1 (`crypto/sha1`). -/
def sha1 (msg : Bytes) : Bytes :=
  let hh := (chunksOf 64 (mdPad msg 64 8)).foldl sha1Compress
    [1732584193, 4023233417, 2562383102, 271733878, 3285377520]
  (hh.map (beBytes 4)).flatten

/-- SHA-256 round constants. -/
def sha256K : List Nat := [
  1116352408, 1899447441, 3049323471, 3921009573, 961987163, 1508970993,
  2453635748, 2870763221, 3624381080, 310598401, 607225278, 1426881987,
  1925078388, 2162078206, 2614888103, 3248222580, 3835390401, 4022224774,
  264347078, 604807628, 770255983, 1249150122, 1555081692, 1996064986,
  2554220882, 2821834349, 2952996808, 3210313671, 3336571891, 3584528711,
  113926993, 338241895, 666307205, 773529912, 1294757372, 1396182291,
  1695183700, 1986661051, 2177026350, 2456956037, 2730485921, 2820302411,
  3259730800, 3345764771, 3516065817, 3600352804, 4094571909, 275423344,
  430227734, 506948616, 659060556, 883997877, 958139571, 1322822218,
  1537002063, 1747873779, 1955562222, 2024104815, 2227730452, 2361852424,
  2428436474, 2756734187, 3204031479, 3329325298]

/-- SHA-256 initial digest. -/
def sha256H0 : List Nat := [
  1779033703, 3144134277, 1013904242, 2773480762,
  1359893119, 2600822924, 528734635, 1541459225]

/-- Extend the 16-word SHA-256 message schedule by `n` further words. -/
def sha256Extend (ws : List Nat) : Nat → List Nat
  | 0 => ws
  | n + 1 =>
      let len := ws.length
      let w15 := ws.getD (len - 15) 0
      let w2 := ws.getD (len - 2) 0
      let s0 := rotr32 w15 7 ^^^ rotr32 w15 18 ^^^ w15 / 2 ^ 3
      let s1 := rotr32 w2 17 ^^^ rotr32 w2 19 ^^^ w2 / 2 ^ 10
      sha256Extend (ws ++ [w32 (ws.getD (len - 16) 0 + s0 + ws.getD (len - 7) 0 + s1)]) n

/-- One SHA-256 round on the eight working registers. -/
def sha256Step (st : List Nat) (kw : Nat × Nat) : List Nat :=
  let a := st.getD 0 0
  let b := st.getD 1 0
  let c := st.getD 2 0
  let d := st.getD 3 0
  let e := st.getD 4 0
  let f := st.getD 5 0
  let g := st.getD 6 0
  let h := st.getD 7 0
  let s1 := rotr32 e 6 ^^^ rotr32 e 11 ^^^ rotr32 e 25
  let ch := e &&& f ^^^ (4294967295 ^^^ e) &&& g
  let t1 := w32 (h + s1 + ch + kw.1 + kw.2)
  let s0 := rotr32 a 2 ^^^ rotr32 a 13 ^^^ rotr32 a 22
  let maj := a &&& b ^^^ a &&& c ^^^ b &&& c
  let t2 := w32 (s0 + maj)
  [w32 (t1 + t2), a, b, c, w32 (d + t1), e, f, g]

/-- SHA-256 compression of one 64-byte chunk. -/
def sha256Compress (h : List Nat) (chunk : Bytes) : List Nat :=
  let ws := sha256Extend (bytesToWords32 chunk) 48
  let st := (sha256K.zip ws).foldl sha256Step h
  (h.zip st).map (fun p => w32 (p.1 + p.2))

/-- SHA-256 (`crypto/sha256`). -/
def sha256 (msg : Bytes) : Bytes :=
  (((chunksOf 64 (mdPad msg 64 8)).foldl sha256Compress sha256H0).map
    (beBytes 4)).flatten

/-- SHA-512 round constants. -/
def sha512K : List Nat := [
  4794697086780616226, 8158064640168781261, 13096744586834688815, 16840607885511220156,
  4131703408338449720, 6480981068601479193, 10538285296894168987, 12329834152419229976,
  15566598209576043074, 1334009975649890238, 2608012711638119052, 6128411473006802146,
  8268148722764581231, 9286055187155687089, 11230858885718282805, 13951009754708518548,
  16472876342353939154, 17275323862435702243, 1135362057144423861, 2597628984639134821,
  3308224258029322869, 5365058923640841347, 6679025012923562964, 8573033837759648693,
  10970295158949994411, 12119686244451234320, 12683024718118986047, 13788192230050041572,
  14330467153632333762, 15395433587784984357, 489312712824947311, 1452737877330783856,
  2861767655752347644, 3322285676063803686, 5560940570517711597, 5996557281743188959,
  7280758554555802590, 8532644243296465576, 9350256976987008742, 10552545826968843579,
  11727347734174303076, 12113106623233404929, 14000437183269869457, 14369950271660146224,
  15101387698204529176, 15463397548674623760, 17586052441742319658, 1182934255886127544,
  1847814050463011016, 2177327727835720531, 2830643537854262169, 3796741975233480872,
  4115178125766777443, 5681478168544905931, 6601373596472566643, 7507060721942968483,
  8399075790359081724, 8693463985226723168, 9568029438360202098, 10144078919501101548,
  10430055236837252648, 11840083180663258601, 13761210420658862357, 14299343276471374635,
  14566680578165727644, 15097957966210449927, 16922976911328602910, 17689382322260857208,
  500013540394364858, 748580250866718886, 1242879168328830382, 1977374033974150939,
  2944078676154940804, 3659926193048069267, 4368137639120453308, 4836135668995329356,
  5532061633213252278, 6448918945643986474, 6902733635092675308, 7801388544844847127]

/-- SHA-512 initial digest. -/
def sha512H0 : List Nat := [
  7640891576956012808, 13503953896175478587, 4354685564936845355,
  11912009170470909681, 5840696475078001361, 11170449401992604703,
  2270897969802886507, 6620516959819538809]

/-- Extend the 16-word SHA-512 message schedule by `n` further words. -/
def sha512Extend (ws : List Nat) : Nat → List Nat
  | 0 => ws
  | n + 1 =>
      let len := ws.length
      let w15 := ws.getD (len - 15) 0
      let w2 := ws.getD (len - 2) 0
      let s0 := rotr64 w15 1 ^^^ rotr64 w15 8 ^^^ w15 / 2 ^ 7
      let s1 := rotr64 w2 19 ^^^ rotr64 w2 61 ^^^ w2 / 2 ^ 6
      sha512Extend (ws ++ [w64 (ws.getD (len - 16) 0 + s0 + ws.getD (len - 7) 0 + s1)]) n

/-- One SHA-512 round on the eight working registers. -/
def sha512Step (st : List Nat) (kw : Nat × Nat) : List Nat :=
  let a := st.getD 0 0
  let b := st.getD 1 0
  let c := st.getD 2 0
  let d := st.getD 3 0
  let e := st.getD 4 0
  let f := st.getD 5 0
  let g := st.getD 6 0
  let h := st.getD 7 0
  let s1 := rotr64 e 14 ^^^ rotr64 e 18 ^^^ rotr64 e 41
  let ch := e &&& f ^^^ (18446744073709551615 ^^^ e) &&& g
  let t1 := w64 (h + s1 + ch + kw.1 + kw.2)
  let s0 := rotr64 a 28 ^^^ rotr64 a 34 ^^^ rotr64 a 39
  let maj := a &&& b ^^^ a &&& c ^^^ b &&& c
  let t2 := w64 (s0 + maj)
  [w64 (t1 + t2), a, b, c, w64 (d + t1), e, f, g]

/-- SHA-512 compression of one 128-byte chunk. -/
def sha512Compress (h : List Nat) (chunk : Bytes) : List Nat :=
  let ws := sha512Extend (bytesToWords64 chunk) 64
  let st := (sha512K.zip ws).foldl sha512Step h
  (h.zip st).map (fun p => w64 (p.1 + p.2))

/-- SHA-512 (`crypto/sha512`). -/
def sha512 (msg : Bytes) : Bytes :=
  (((chunksOf 128 (mdPad msg 128 16)).foldl sha512Compress sha512H0).map
    (beBytes 8)).flatten

/-- HMAC (`crypto/hmac`): `hashF` is the hash, `blockSize` its block size. -/
def hmacGo (hashF : Bytes → Bytes) (blockSize : Nat) (key msg : Bytes) : Bytes :=
  let k0 := if blockSize < key.length then hashF key else key
  let k1 := k0 ++ List.replicate (blockSize - k0.length) 0
  hashF (k1.map (fun b => b ^^^ 92) ++ hashF (k1.map (fun b => b ^^^ 54) ++ msg))

/-! ## TOTP engine (`pkg/totp`) -/

/-- `strings.ToUpper` restricted to ASCII (the only bytes it changes for
the Base32 alphabet handling in `GenerateCodeAt`). -/
def toUpperBytes (s : Bytes) : Bytes :=
  s.map (fun b => if 97 ≤ b ∧ b ≤ 122 then b - 32 else b)

/-- `strings.ToLower` restricted to ASCII (used for the URL scheme). -/
def toLowerBytes (s : Bytes) : Bytes :=
  s.map (fun b => if 65 ≤ b ∧ b ≤ 90 then b + 32 else b)

/-- Value of one character of the standard Base32 alphabet
`"ABCDEFGHIJKLMNOPQRSTUVWXYZ234567"`, or `none`. -/
def b32Val (c : Nat) : Option Nat :=
  if 65 ≤ c ∧ c ≤ 90 then some (c - 65)
  else if 50 ≤ c ∧ c ≤ 55 then some (c - 50 + 26)
  else none

/-- `base32.StdEncoding.WithPadding(base32.NoPadding).DecodeString`:
each character contributes 5 bits; a trailing group of 1, 3 or 6 characters
is rejected; leftover low bits are dropped. -/
def base32Decode (s : Bytes) : Option Bytes :=
  match s.mapM b32Val with
  | none => none
  | some vs =>
      let r := vs.length % 8
      if r = 1 ∨ r = 3 ∨ r = 6 then none
      else
        let total := vs.foldl (fun acc v => acc * 32 + v) 0
        let outLen := 5 * vs.length / 8
        some (beBytes outLen (total / 2 ^ (5 * vs.length - 8 * outLen)))

/-- `totp.Config`.  `Period` is in whole seconds (the `time.Duration` as
consumed via `Period.Seconds()`; all periods in the repository are whole
seconds). -/
structure Config where
  Secret : Bytes
  Period : Nat
  Digits : Nat
  Algorithm : Bytes
  Issuer : Bytes
  Account : Bytes
deriving DecidableEq, Repr

/-- `"SHA1"` as bytes. -/
def sha1Tag : Bytes := bytesOfAscii "SHA1"

/-- `totp.DefaultConfig(secret)`. -/
def DefaultConfig (secret : Bytes) : Config :=
  { Secret := secret, Period := 30, Digits := 6, Algorithm := sha1Tag,
    Issuer := [], Account := [] }

/-- The `switch c.Algorithm` of `generateHOTP`: the hash function and its
HMAC block size, or `none` for an unsupported algorithm. -/
def hashFor (alg : Bytes) : Option ((Bytes → Bytes) × Nat) :=
  if alg = bytesOfAscii "SHA1" then some (sha1, 64)
  else if alg = bytesOfAscii "SHA256" then some (sha256, 64)
  else if alg = bytesOfAscii "SHA512" then some (sha512, 128)
  else none

/-- Decimal digits of `n` in ASCII, no leading zeros (`strconv.Itoa` for a
nonnegative value). -/
def natDecAux : Nat → Nat → Bytes
  | 0, n => [48 + n % 10]
  | fuel + 1, n => if n < 10 then [48 + n] else natDecAux fuel (n / 10) ++ [48 + n % 10]

/-- Decimal digits of `n` in ASCII, no leading zeros (`strconv.Itoa` for a
nonnegative value); structural recursion on a fuel argument (sufficient
whenever `fuel ≥ n`). -/
def natDecDigits (n : Nat) : Bytes := natDecAux n n

/-- `fmt.Sprintf("%0*d", width, n)`: zero-padded decimal of exactly `width`
characters (more if `n` needs them). -/
def formatCode (n width : Nat) : Bytes :=
  let ds := natDecDigits n
  List.replicate (width - ds.length) 48 ++ ds

/-- `totp.Config.generateHOTP(secret, counter)`: HMAC over the big-endian
8-byte counter, dynamic truncation, reduction modulo `10^Digits`, zero-padded
formatting.  `uint32(math.Pow10(Digits))` is exact for `Digits ≤ 9`; the
model truncates `10^Digits` modulo `2^32` as the `uint32` conversion does. -/
def generateHOTP (c : Config) (secret : Bytes) (counter : Nat) : Option Bytes :=
  match hashFor c.Algorithm with
  | none => none
  | some hb =>
      let mac := hmacGo hb.1 hb.2 secret (beBytes 8 counter)
      let offset := mac.getD (mac.length - 1) 0 &&& 15
      let code :=
        ((mac.drop offset).take 4).foldl (fun acc b => acc * 256 + b) 0 &&&
          2147483647
      let modulo := 10 ^ c.Digits % 4294967296
      some (formatCode (code % modulo) c.Digits)

/-- `uint64(x)` for a Go `int64`-valued time: two's-complement wraparound. -/
def u64ofInt (i : Int) : Nat := (i % 18446744073709551616).toNat

/-- `totp.Config.GenerateCodeAt(t)` with `t` the Unix time in seconds.
`counter := uint64(t.Unix()) / uint64(c.Period.Seconds())` has no zero
guard: a zero period is a runtime division-by-zero panic, distinct from the
error returns for a bad secret or unsupported algorithm. -/
def GenerateCodeAt (c : Config) (t : Int) : GoRes (Bytes × Nat) :=
  match base32Decode (toUpperBytes c.Secret) with
  | none => .err
  | some secret =>
      if c.Period = 0 then .panic
      else
        let tu := u64ofInt t
        let counter := tu / c.Period
        match generateHOTP c secret counter with
        | none => .err
        | some code =>
            let nextCounter := (counter + 1) * c.Period % 18446744073709551616
            let expiresIn :=
              (nextCounter + 18446744073709551616 - tu) % 18446744073709551616
            .ok (code, expiresIn)

/-- `err == nil && generatedCode == code` for one window probe. -/
def resMatches (r : GoRes (Bytes × Nat)) (code : Bytes) : Bool :=
  match r with
  | .ok cp => cp.1 == code
  | _ => false

/-- `totp.Config.ValidateAt(code, t)`: accept on a match in the window of
`t`, else in the window of `t - Period`, else in the window of `t + Period`.
A division-by-zero panic in any probe propagates. -/
def ValidateAt (c : Config) (code : Bytes) (t : Int) : GoRes Bool :=
  match GenerateCodeAt c t with
  | .panic => .panic
  | r1 =>
      if resMatches r1 code then .ok true
      else
        match GenerateCodeAt c (t - (c.Period : Int)) with
        | .panic => .panic
        | r2 =>
            if resMatches r2 code then .ok true
            else
              match GenerateCodeAt c (t + (c.Period : Int)) with
              | .panic => .panic
              | r3 => .ok (resMatches r3 code)

/-! ## otpauth URI codec (`totp.ParseURI` / `totp.Config.ToURI`)

The URI layer calls Go's `net/url` (library code, not in the repository):
`url.Values.Encode`, `url.PathEscape`, `url.Parse`, `url.Values.Get` and
`url.ParseQuery` are reproduced here for the `otpauth://totp/...` shapes the
repository produces and consumes. -/

/-- Is `c` an ASCII letter or digit? -/
def isAlnumByte (c : Nat) : Bool :=
  (65 ≤ c && c ≤ 90) || (97 ≤ c && c ≤ 122) || (48 ≤ c && c ≤ 57)

/-- The unreserved marks `- _ . ~` of RFC 3986 §2.3. -/
def isMarkByte (c : Nat) : Bool :=
  c == 45 || c == 95 || c == 46 || c == 126

/-- `net/url.shouldEscape(c, encodeQueryComponent)`: everything but
alphanumerics and `- _ . ~` is escaped in a query component. -/
def shouldEscapeQuery (c : Nat) : Bool :=
  !(isAlnumByte c || isMarkByte c)

/-- `net/url.shouldEscape(c, encodePathSegment)`: of the RFC reserved set
`$ & + , / : ; = ? @`, only `/ ; , ?` are escaped inside a path segment. -/
def shouldEscapePathSeg (c : Nat) : Bool :=
  !(isAlnumByte c || isMarkByte c ||
    c == 36 || c == 38 || c == 43 || c == 58 || c == 61 || c == 64)

/-- Upper-case hex digit of `d < 16`. -/
def hexUpperDigit (d : Nat) : Nat := if d < 10 then 48 + d else 55 + d

/-- `%XX` escape of one byte. -/
def escByte (c : Nat) : Bytes := [37, hexUpperDigit (c / 16), hexUpperDigit (c % 16)]

/-- `url.QueryEscape`: space becomes `+`, unreserved bytes stay, the rest
is percent-encoded. -/
def queryEscape (s : Bytes) : Bytes :=
  (s.map (fun c =>
    if c = 32 then [43]
    else if shouldEscapeQuery c then escByte c
    else [c])).flatten

/-- `url.PathEscape`. -/
def pathEscape (s : Bytes) : Bytes :=
  (s.map (fun c => if shouldEscapePathSeg c then escByte c else [c])).flatten

/-- Value of one hex digit (either case), or `none`. -/
def unhexDigit (c : Nat) : Option Nat :=
  if 48 ≤ c ∧ c ≤ 57 then some (c - 48)
  else if 65 ≤ c ∧ c ≤ 70 then some (c - 55)
  else if 97 ≤ c ∧ c ≤ 102 then some (c - 87)
  else none

/-- `url.unescape`: decode `%XX` (failing on a malformed escape); in query
mode (`plusToSpace`) a `+` decodes to a space. -/
def unescapeB (plusToSpace : Bool) : Bytes → Option Bytes
  | [] => some []
  | c :: rest =>
      if c = 37 then
        match rest with
        | h :: l :: rest2 =>
            match unhexDigit h, unhexDigit l with
            | some hv, some lv =>
                (unescapeB plusToSpace rest2).map (fun t => (16 * hv + lv) :: t)
            | _, _ => none
        | _ => none
      else
        (unescapeB plusToSpace rest).map
          (fun t => (if plusToSpace ∧ c = 43 then 32 else c) :: t)

/-- `strings.Cut(l, sep)` for a one-byte separator: the part before the
first `sep` and, when `sep` occurs, the part after it. -/
def cutB (sep : Nat) : Bytes → Bytes × Option Bytes
  | [] => ([], none)
  | c :: rest =>
      if c = sep then ([], some rest)
      else
        let p := cutB sep rest
        (c :: p.1, p.2)

/-- Split at every occurrence of `sep` (`strings.Split`). -/
def splitSep (sep : Nat) : Bytes → List Bytes
  | [] => [[]]
  | c :: rest =>
      let r := splitSep sep rest
      if c = sep then [] :: r else (c :: r.headD []) :: r.tail

/-- One iteration of Go's `url.ParseQuery` loop: a `key=value` item between
`&` separators.  An item containing `;`, an empty item, or an item whose key
or value fails to unescape contributes nothing (the error is recorded and
the pair skipped; `URL.Query()` drops the error). -/
def parsePair (item : Bytes) : Option (Bytes × Bytes) :=
  if item.contains 59 then none
  else if item = [] then none
  else
    let p := cutB 61 item
    match unescapeB true p.1, unescapeB true (p.2.getD []) with
    | some k, some v => some (k, v)
    | _, _ => none

/-- `url.ParseQuery` as used through `URL.Query()`: the surviving pairs in
order. -/
def parseQuery (q : Bytes) : List (Bytes × Bytes) :=
  if q = [] then [] else (splitSep 38 q).filterMap parsePair

/-- `url.Values.Get(key)`: first value for the key, or `""`. -/
def getFirst (m : List (Bytes × Bytes)) (k : Bytes) : Bytes :=
  match m.find? (fun p => p.1 == k) with
  | some p => p.2
  | none => []

/-- Modelled from the spec: `url.Parse` of Go's `net/url` (library code, not
in the repository), restricted to the `scheme://host/path?query` shapes of
otpauth URIs: strip a fragment at the first `#`, split the raw query at the
first `?`, read the scheme up to the first `:` (lower-cased, as `url.Parse`
does), require `//`, read the host up to the first `/`, and percent-decode
the remaining path.  Returns `(scheme, host, decodedPath, rawQuery)`. -/
def urlParse (s : Bytes) : Option (Bytes × Bytes × Bytes × Bytes) :=
  let s1 := (cutB 35 s).1
  let q := cutB 63 s1
  let rawQuery := q.2.getD []
  match cutB 58 q.1 with
  | (_, none) => none
  | (schemeRaw, some afterScheme) =>
      match afterScheme with
      | 47 :: 47 :: rest2 =>
          let a := cutB 47 rest2
          let rawPath := match a.2 with | some p => 47 :: p | none => []
          match unescapeB false rawPath with
          | none => none
          | some path => some (toLowerBytes schemeRaw, a.1, path, rawQuery)
      | _ => none

/-- `strconv.Atoi` for the nonnegative in-range decimal strings the TOTP
codec produces and consumes; anything else is an error. -/
def goAtoiNat (s : Bytes) : Option Nat :=
  if s ≠ [] ∧ s.all (fun c => decide (48 ≤ c ∧ c ≤ 57)) then
    some (s.foldl (fun acc c => acc * 10 + (c - 48)) 0)
  else none

/-- `totp.ParseURI(uri)`: scheme and host checks, required `secret`,
optional `issuer` / `period` / `digits` / `algorithm` query parameters
(algorithm upper-cased), then the label `issuer:account` from the path
(issuer only filled from the label when not already set by the query). -/
def ParseURI (uri : Bytes) : Option Config :=
  match urlParse uri with
  | none => none
  | some (scheme, host, path, rawQuery) =>
      if scheme ≠ bytesOfAscii "otpauth" then none
      else if host ≠ bytesOfAscii "totp" then none
      else
        let q := parseQuery rawQuery
        let secret := getFirst q (bytesOfAscii "secret")
        if secret = [] then none
        else
          let c0 := DefaultConfig secret
          let issuerQ := getFirst q (bytesOfAscii "issuer")
          let c1 := if issuerQ ≠ [] then { c0 with Issuer := issuerQ } else c0
          let periodQ := getFirst q (bytesOfAscii "period")
          match (if periodQ ≠ [] then goAtoiNat periodQ else some c1.Period) with
          | none => none
          | some per =>
              let c2 := { c1 with Period := per }
              let digitsQ := getFirst q (bytesOfAscii "digits")
              match (if digitsQ ≠ [] then goAtoiNat digitsQ else some c2.Digits) with
              | none => none
              | some dig =>
                  let c3 := { c2 with Digits := dig }
                  let algQ := getFirst q (bytesOfAscii "algorithm")
                  let c4 :=
                    if algQ ≠ [] then { c3 with Algorithm := toUpperBytes algQ }
                    else c3
                  let label := match path with | 47 :: rest => rest | p => p
                  if label ≠ [] then
                    match cutB 58 label with
                    | (pre, some post) =>
                        let c5 :=
                          if c4.Issuer = [] then { c4 with Issuer := pre } else c4
                        some { c5 with Account := post }
                    | (_, none) => some { c4 with Account := label }
                  else some c4

/-- Join byte strings with a one-byte separator. -/
def joinSep (sep : Nat) : List Bytes → Bytes
  | [] => []
  | [x] => x
  | x :: y :: rest => x ++ sep :: joinSep sep (y :: rest)

/-- `totp.Config.ToURI()`.  `url.Values.Encode` emits `key=value` pairs
sorted by key — `algorithm < digits < issuer < period < secret` — each
query-escaped; parameters equal to their defaults are omitted, `secret`
always included.  The label is `issuer:account` (or whichever is nonempty),
path-escaped. -/
def ToURI (c : Config) : Bytes :=
  let pairs : List (Bytes × Bytes) :=
    (if c.Algorithm ≠ sha1Tag then [(bytesOfAscii "algorithm", c.Algorithm)]
      else []) ++
    (if c.Digits ≠ 6 then [(bytesOfAscii "digits", natDecDigits c.Digits)]
      else []) ++
    (if c.Issuer ≠ [] then [(bytesOfAscii "issuer", c.Issuer)] else []) ++
    (if c.Period ≠ 30 then [(bytesOfAscii "period", natDecDigits c.Period)]
      else []) ++
    [(bytesOfAscii "secret", c.Secret)]
  let query := joinSep 38 (pairs.map (fun p => queryEscape p.1 ++ 61 :: queryEscape p.2))
  let label :=
    if c.Issuer ≠ [] ∧ c.Account ≠ [] then c.Issuer ++ 58 :: c.Account
    else if c.Issuer ≠ [] then c.Issuer
    else c.Account
  bytesOfAscii "otpauth://totp/" ++ pathEscape label ++ 63 :: query

/-! ## Concrete instances used by the closed theorems below -/

/-- The RFC 6238 test secret, Base32 of `"12345678901234567890"`. -/
def rfcSecret : Bytes := bytesOfAscii "GEZDGNBVGY3TQOJQGEZDGNBVGY3TQOJQ"

/-- The default TOTP configuration over the RFC 6238 test secret. -/
def rfcConfig : Config := DefaultConfig rfcSecret

/-- The decoded RFC 6238 test key, `"12345678901234567890"`. -/
def rfcKey : Bytes := bytesOfAscii "12345678901234567890"

/-- The code of one counter window: the value `generateHOTP` returns for
that counter when the algorithm is supported.  Used to state which windows
`ValidateAt` accepts. -/
def windowCode (c : Config) (secret : Bytes) (counter : Nat) : Bytes :=
  (generateHOTP c secret counter).getD []

/-- A concrete stored salt for the unlock-divergence theorems. -/
def storedSaltC : Bytes := List.range 32

/-- A concrete fresh salt, different from `storedSaltC`. -/
def freshSaltC : Bytes := List.replicate 32 7

/-- A concrete master password. -/
def pwC : Bytes := bytesOfAscii "CorrectHorse1!"

/-- The KDF parameters stored in the concrete vault file. -/
def storedParamsC : KeyDerivationParams := DefaultKeyDerivationParams storedSaltC

/-- The serialized vault payload of the concrete vault file. -/
def vaultJsonC : Bytes := bytesOfAscii "vault"

/-- A concrete vault file: created with password `pwC` and the stored
parameters `storedParamsC` (12 one-bytes as the random nonce). -/
def vaultFileC : Bytes :=
  encodeVaultFile (MarshalParams storedParamsC)
    ((Encrypt vaultJsonC (DeriveKey pwC storedParamsC)
      (List.replicate 12 1)).getD [])

/-- A 16-byte file with a correct magic but version 2. -/
def badVersionFileC : Bytes := VaultHeader ++ le32enc 2 ++ le32enc 0

/-- A file with a wrong magic (`"XXXXXXXX"`) and version 99 around a valid
KDF-parameter record. -/
def skewFileC : Bytes :=
  List.replicate 8 88 ++ le32enc 99 ++
    le32enc (MarshalParams storedParamsC).length ++ MarshalParams storedParamsC ++
    [1, 2, 3]

/-- A config with non-default everything and a well-behaved issuer. -/
def roundTripCfg : Config :=
  { Secret := bytesOfAscii "JBSWY3DPEHPK3PXP", Period := 60, Digits := 8,
    Algorithm := bytesOfAscii "SHA256", Issuer := bytesOfAscii "Example",
    Account := bytesOfAscii "alice" }

/-- A config whose issuer contains a colon. -/
def colonIssuerCfg : Config :=
  { Secret := bytesOfAscii "SECRET", Period := 60, Digits := 8,
    Algorithm := bytesOfAscii "SHA256", Issuer := bytesOfAscii "A:B",
    Account := bytesOfAscii "C" }

/-- An otpauth URI carrying `period=0`. -/
def zeroPeriodURI : Bytes :=
  bytesOfAscii
    "otpauth://totp/acc?secret=GEZDGNBVGY3TQOJQGEZDGNBVGY3TQOJQ&period=0"

/-- The config `ParseURI` produces for `zeroPeriodURI`. -/
def zeroPeriodCfg : Config :=
  { Secret := rfcSecret, Period := 0, Digits := 6, Algorithm := sha1Tag,
    Issuer := [], Account := bytesOfAscii "acc" }

/-! # Verification

Helper lemmas first, then one theorem per claim. -/

/-- Four little-endian bytes decode back to any `n < 2^32`. -/
theorem le32dec_le32enc (n : Nat) (h : n < 4294967296) :
    le32dec (le32enc n) = n := by
  simp only [le32enc, le32dec, List.getD_cons_zero, List.getD_cons_succ]
  omega

/-- `le32enc` always produces four bytes. -/
theorem length_le32enc (n : Nat) : (le32enc n).length = 4 := by
  simp [le32enc]

/-- The parameter serialization round-trips. -/
theorem unmarshalParams_marshalParams (p : KeyDerivationParams) :
    UnmarshalParams (MarshalParams p) = some p := by
  obtain ⟨alg, i, m, par, salt, k⟩ := p
  simp [MarshalParams, UnmarshalParams]

/-- Opening a sealed blob with the sealing key and nonce recovers the
plaintext. -/
theorem gcmOpen_gcmSeal (k nonce p : Bytes) :
    gcmOpen k nonce (gcmSeal k nonce p) = some p := by
  unfold gcmSeal gcmOpen
  rw [List.append_assoc]
  have h2 : (p ++ (k ++ nonce)).length - (k.length + nonce.length) = p.length := by
    simp only [List.length_append]
    omega
  rw [if_pos ⟨by simp only [List.length_append]; omega,
    by rw [h2]; exact List.drop_left p (k ++ nonce)⟩, h2]
  exact congrArg some (List.take_left p (k ++ nonce))

/-- C2.  For every plaintext byte buffer `p` and every 32-byte key `k`
(and a 96-bit nonce, drawn inside `Encrypt` in the Go code),
`Decrypt(Encrypt(p, k), k)` succeeds and returns exactly `p`. -/
theorem encrypt_decrypt_roundtrip (p k nonce : Bytes)
    (hk : k.length = 32) (hn : nonce.length = 12) :
    ∃ e, Encrypt p k nonce = some e ∧ Decrypt e k = some p := by
  refine ⟨nonce ++ gcmSeal k nonce p, by simp [Encrypt, hk], ?_⟩
  unfold Decrypt
  rw [if_neg (by omega), if_neg (by simp [gcmNonceSize]; omega),
    show gcmNonceSize = nonce.length from hn.symm,
    List.take_left nonce (gcmSeal k nonce p),
    List.drop_left nonce (gcmSeal k nonce p)]
  exact gcmOpen_gcmSeal k nonce p

/-- Witness for C2 at a concrete plaintext, key and nonce. -/
theorem encrypt_decrypt_roundtrip_witness :
    (List.replicate 32 5 : Bytes).length = 32 ∧
      ∃ e, Encrypt [1, 2, 3] (List.replicate 32 5) (List.replicate 12 9) = some e ∧
        Decrypt e (List.replicate 32 5) = some [1, 2, 3] :=
  ⟨by decide,
    encrypt_decrypt_roundtrip [1, 2, 3] (List.replicate 32 5)
      (List.replicate 12 9) (by decide) (by decide)⟩

/-- `take 4` past a 32-bit field. -/
theorem take4_le32 (n : Nat) (X : Bytes) : (le32enc n ++ X).take 4 = le32enc n :=
  List.take_left' (length_le32enc n)

/-- `drop 4` past a 32-bit field. -/
theorem drop4_le32 (n : Nat) (X : Bytes) : (le32enc n ++ X).drop 4 = X :=
  List.drop_left' (length_le32enc n)

/-- C3.  Encoding a KDF-parameter blob and a ciphertext blob into the
container — magic, version (4-byte LE), params length (4-byte LE), params,
ciphertext — and decoding the resulting bytes yields back exactly the same
blobs.  (The params-length field is a `uint32`, so the blob must be shorter
than `2^32`; every serialized parameter record is.) -/
theorem decode_encode_roundtrip (paramsJSON cipher : Bytes)
    (h : paramsJSON.length < 4294967296) :
    decodeVaultFile (encodeVaultFile paramsJSON cipher) =
      .inr (paramsJSON, cipher) := by
  have e1 : encodeVaultFile paramsJSON cipher =
      VaultHeader ++ (le32enc 1 ++ (le32enc paramsJSON.length ++
        (paramsJSON ++ cipher))) := by
    simp [encodeVaultFile, VaultVersion, List.append_assoc]
  have hH : VaultHeader.length = 8 := by decide
  rw [e1]
  unfold decodeVaultFile
  rw [if_neg (by
    simp only [List.length_append, length_le32enc, hH]
    omega)]
  rw [if_neg (not_not_intro (List.take_left VaultHeader _)),
    List.drop_left VaultHeader]
  simp only [take4_le32, drop4_le32,
    show le32dec (le32enc 1) = 1 from by decide, VaultVersion,
    le32dec_le32enc _ h, ne_eq, not_true_eq_false, if_false]
  rw [if_neg (by simp only [List.length_append]; omega),
    List.take_left paramsJSON, List.drop_left paramsJSON]

/-- Witness for C3 at concrete blobs. -/
theorem decode_encode_roundtrip_witness :
    ([1, 2, 3] : Bytes).length < 4294967296 ∧
      decodeVaultFile (encodeVaultFile [1, 2, 3] [9, 8]) = .inr ([1, 2, 3], [9, 8]) :=
  ⟨by decide, decode_encode_roundtrip [1, 2, 3] [9, 8] (by decide)⟩

/-- The temp path differs from the target path. -/
theorem tempPath_ne (path : Bytes) : tempPathOf path ≠ path := by
  intro h
  have h4 : (bytesOfAscii ".tmp").length = 4 := by decide
  have := congrArg List.length h
  rw [tempPathOf, List.length_append, h4] at this
  omega

/-- C4.  Save writes the complete container to the sibling temporary file
and makes it visible at the target only via rename: on success the target
holds the complete buffer and no temp file remains; on rename failure the
temp file is deleted, the error is surfaced, and the previous content at
the target is unchanged; in every observable intermediate state the target
holds either the old content or the complete new buffer — never a partial
file. -/
theorem save_atomic_rename (fs : Bytes → Option Bytes) (path buf : Bytes)
    (renameOk : Bool) :
    ((saveToDisk fs path buf true).1 path = some buf ∧
      (saveToDisk fs path buf true).1 (tempPathOf path) = none ∧
      (saveToDisk fs path buf true).2 = true) ∧
    ((saveToDisk fs path buf false).1 path = fs path ∧
      (saveToDisk fs path buf false).1 (tempPathOf path) = none ∧
      (saveToDisk fs path buf false).2 = false) ∧
    (∀ s ∈ saveStates fs path buf renameOk, s path = fs path ∨ s path = some buf) := by
  have hne : tempPathOf path ≠ path := tempPath_ne path
  have hne2 : path ≠ tempPathOf path := hne.symm
  refine ⟨⟨?_, ?_, rfl⟩, ⟨?_, ?_, rfl⟩, ?_⟩
  · simp [saveToDisk, fsRename, fsWrite]
  · simp [saveToDisk, fsRename, fsWrite, hne]
  · simp [saveToDisk, fsRemove, fsWrite, hne2]
  · simp [saveToDisk, fsRemove, fsWrite, hne]
  · intro s hs
    simp only [saveStates, List.mem_cons, List.not_mem_nil, or_false] at hs
    rcases hs with h | h | h
    · exact Or.inl (h ▸ rfl)
    · subst h
      exact Or.inl (by simp [fsWrite, hne2])
    · subst h
      cases renameOk
      · exact Or.inl (by simp [saveToDisk, fsRemove, fsWrite, hne2, hne])
      · exact Or.inr (by simp [saveToDisk, fsRename, fsWrite])

/-- C5.  Any byte sequence long enough to carry a version field whose
version field (the 4 little-endian bytes after the 8-byte magic) is not the
supported constant 1 fails to load, with the bad-magic or bad-version
corrupt-vault error. -/
theorem load_version_gate (data key : Bytes) (h16 : 16 ≤ data.length)
    (hver : le32dec ((data.drop 8).take 4) ≠ 1) :
    load data key = .inl .badHeader ∨ load data key = .inl .badVersion := by
  have hH : VaultHeader.length = 8 := by decide
  unfold load decodeVaultFile
  rw [if_neg (by rw [hH]; omega)]
  by_cases hhead : data.take VaultHeader.length = VaultHeader
  · rw [if_neg (not_not_intro hhead), if_pos (by rw [hH]; exact hver)]
    exact Or.inr rfl
  · rw [if_pos hhead]
    exact Or.inl rfl

/-- Witness for C5: a well-formed header with version 2 is rejected. -/
theorem load_version_gate_witness :
    (16 ≤ badVersionFileC.length ∧
      le32dec ((badVersionFileC.drop 8).take 4) ≠ 1) ∧
      (load badVersionFileC [] = .inl .badHeader ∨
        load badVersionFileC [] = .inl .badVersion) :=
  ⟨⟨by decide, by decide⟩, load_version_gate badVersionFileC [] (by decide) (by decide)⟩

/-- C6 (amended).  `LoadParams` succeeds reading only the header region and
the KDF-parameter record — for a container holding a marshalled parameter
record it returns that record whatever the payload is, taking no key and
attempting no decryption — and it fails closed when the file is smaller than
the fixed header region or when the declared parameter length exceeds the
remaining file length.  (It does *not* validate the magic or the version; it
skips both, see the counterexample.) -/
theorem loadParams_header_params_only (p : KeyDerivationParams)
    (cipher data : Bytes) (h : (MarshalParams p).length < 4294967296) :
    LoadParams (encodeVaultFile (MarshalParams p) cipher) = .inr p ∧
    (data.length < 16 → LoadParams data = .inl .tooSmall) ∧
    (16 ≤ data.length →
      (data.drop 16).length < le32dec ((data.drop 12).take 4) →
      LoadParams data = .inl .paramsTooShort) := by
  have hH : VaultHeader.length = 8 := by decide
  refine ⟨?_, ?_, ?_⟩
  · have e1 : encodeVaultFile (MarshalParams p) cipher =
        VaultHeader ++ (le32enc 1 ++ (le32enc (MarshalParams p).length ++
          (MarshalParams p ++ cipher))) := by
      simp [encodeVaultFile, VaultVersion, List.append_assoc]
    rw [e1]
    unfold LoadParams
    rw [if_neg (by simp only [List.length_append, length_le32enc, hH]; omega),
      List.drop_left VaultHeader]
    simp only [drop4_le32, take4_le32, le32dec_le32enc _ h]
    rw [if_neg (by simp only [List.length_append]; omega),
      List.take_left (MarshalParams p), unmarshalParams_marshalParams]
  · intro hlt
    unfold LoadParams
    rw [if_pos (by rw [hH]; omega)]
  · intro h16 hshort
    unfold LoadParams
    rw [if_neg (by rw [hH]; omega)]
    simp only [hH, List.drop_drop, Nat.reduceAdd]
    rw [if_pos hshort]

/-- Witness for C6 at the concrete stored parameters. -/
theorem loadParams_header_params_only_witness :
    (MarshalParams storedParamsC).length < 4294967296 ∧
      LoadParams (encodeVaultFile (MarshalParams storedParamsC) [1, 2, 3]) =
        .inr storedParamsC :=
  ⟨by decide,
    (loadParams_header_params_only storedParamsC [1, 2, 3] [] (by decide)).1⟩

set_option maxRecDepth 10000 in
/-- C6 counterexample: contrary to the claim, `LoadParams` does not fail
closed on a wrong magic or a wrong version — it skips both fields.  A file
with magic `"XXXXXXXX"` and version 99 around a valid parameter record still
yields that record, while `load` rejects the very same bytes. -/
theorem loadParams_ignores_magic_and_version :
    LoadParams skewFileC = .inr storedParamsC ∧
      load skewFileC [] = .inl .badHeader := by decide

set_option maxRecDepth 10000 in
/-- C1.  `service.VaultServiceImpl.UnlockVault` derives the key from
freshly generated default parameters (fresh random salt) instead of the
stored ones: on a vault file created with password `pwC` and stored salt
`storedSaltC`, the service-layer unlock with the *correct* password fails
decryption whenever the fresh salt differs from the stored one, while the
TUI unlock (`App.unlockVault`), which loads the stored parameters, returns
the vault. -/
theorem serviceUnlock_regenerates_params_bug :
    serviceUnlockVault vaultFileC pwC freshSaltC = .inl .decryptFailed ∧
      appUnlockVault vaultFileC pwC = .inr vaultJsonC ∧
      freshSaltC ≠ storedParamsC.Salt := by decide

set_option maxRecDepth 10000 in
/-- C7.  With the RFC 6238 Base32 secret, SHA1, 6 digits and a 30-second
period, the code at Unix time 59 is `"287082"` (bytes
`[50, 56, 55, 48, 56, 50]`) and expires in exactly 1 second. -/
theorem totp_rfc_vector :
    GenerateCodeAt rfcConfig 59 = .ok (bytesOfAscii "287082", 1) := by decide

/-- With a supported algorithm, `generateHOTP` returns the window code. -/
theorem generateHOTP_eq (c : Config) (s : Bytes)
    (hb : (hashFor c.Algorithm).isSome) (n : Nat) :
    generateHOTP c s n = some (windowCode c s n) := by
  obtain ⟨v, hv⟩ := Option.isSome_iff_exists.mp hb
  unfold windowCode generateHOTP
  rw [hv]
  rfl

/-- `uint64` of a nonnegative in-range time is itself. -/
theorem u64ofInt_coe (t : Nat) (h : t < 2 ^ 64) : u64ofInt (t : Int) = t := by
  unfold u64ofInt
  omega

/-- `GenerateCodeAt` at a nonnegative in-range time returns the code of the
window `t / Period`. -/
theorem generateCodeAt_ok (c : Config) (s : Bytes) (t : Nat)
    (hs : base32Decode (toUpperBytes c.Secret) = some s)
    (hb : (hashFor c.Algorithm).isSome)
    (hper : 0 < c.Period) (ht : t < 2 ^ 64) :
    ∃ e, GenerateCodeAt c (t : Int) = .ok (windowCode c s (t / c.Period), e) := by
  simp only [GenerateCodeAt, hs, u64ofInt_coe t ht, generateHOTP_eq c s hb,
    if_neg (show ¬ c.Period = 0 by omega)]
  exact ⟨_, rfl⟩

/-- `ValidateAt` with all three probes generating successfully is the match
of the code against the three probe codes, in probe order. -/
theorem validateAt_eq (c : Config) (code : Bytes) (u : Int)
    (w0 wm wq : Bytes) (e0 em eq2 : Nat)
    (h0 : GenerateCodeAt c u = .ok (w0, e0))
    (hm : GenerateCodeAt c (u - (c.Period : Int)) = .ok (wm, em))
    (hq : GenerateCodeAt c (u + (c.Period : Int)) = .ok (wq, eq2)) :
    ValidateAt c code u = .ok (w0 == code || (wm == code || wq == code)) := by
  unfold ValidateAt
  rw [h0, hm, hq]
  cases hw0 : w0 == code <;> cases hwm : wm == code <;> cases hwq : wq == code <;>
    simp [resMatches, hw0, hwm, hwq]

/-- Window arithmetic: one period earlier is the previous counter. -/
theorem window_sub (t p : Nat) (hp : 0 < p) (h : p ≤ t) :
    (t - p) / p = t / p - 1 := by
  rw [Nat.div_eq_sub_div hp h, Nat.add_sub_cancel]

/-- C8 (amended).  For a valid config (decodable secret, supported
algorithm, positive period) and an in-range time `t` at least two periods
after the epoch: `ValidateAt` accepts a code exactly when it equals the code
of the window of `t`, of the immediately preceding window, or of the
immediately following window; consequently the code generated at `t` is
accepted at `t ± period`.  (At `t ± 2·period` it is accepted exactly when it
coincides with one of the three codes probed there — which the counterexample
shows does happen.) -/
theorem validateAt_window_tolerance (c : Config) (code : Bytes) (t : Nat)
    (s : Bytes)
    (hs : base32Decode (toUpperBytes c.Secret) = some s)
    (hb : (hashFor c.Algorithm).isSome)
    (hper : 0 < c.Period)
    (ht : 2 * c.Period ≤ t)
    (ht64 : t + 2 * c.Period < 2 ^ 64) :
    (ValidateAt c code (t : Int) = .ok true ↔
      (code = windowCode c s (t / c.Period - 1) ∨
       code = windowCode c s (t / c.Period) ∨
       code = windowCode c s (t / c.Period + 1))) ∧
    (∀ codeT e, GenerateCodeAt c (t : Int) = .ok (codeT, e) →
      ValidateAt c codeT ((t : Int) + (c.Period : Int)) = .ok true ∧
      ValidateAt c codeT ((t : Int) - (c.Period : Int)) = .ok true) := by
  set p := c.Period with hpdef
  have hple : p ≤ t := by omega
  have g0 : ∃ e, GenerateCodeAt c (t : Int) = .ok (windowCode c s (t / p), e) :=
    generateCodeAt_ok c s t hs hb hper (by omega)
  have gm : ∃ e, GenerateCodeAt c ((t : Int) - (p : Int)) =
      .ok (windowCode c s (t / p - 1), e) := by
    obtain ⟨e, he⟩ := generateCodeAt_ok c s (t - p) hs hb hper (by omega)
    rw [Nat.cast_sub hple, window_sub t p hper hple] at he
    exact ⟨e, he⟩
  have gq : ∃ e, GenerateCodeAt c ((t : Int) + (p : Int)) =
      .ok (windowCode c s (t / p + 1), e) := by
    obtain ⟨e, he⟩ := generateCodeAt_ok c s (t + p) hs hb hper (by omega)
    rw [Nat.cast_add, Nat.add_div_right t hper] at he
    exact ⟨e, he⟩
  obtain ⟨e0, g0⟩ := g0
  obtain ⟨em, gm⟩ := gm
  obtain ⟨eq1, gq⟩ := gq
  constructor
  · rw [validateAt_eq c code (t : Int) _ _ _ _ _ _ g0 gm gq]
    constructor
    · intro h
      have hb2 := GoRes.ok.inj h
      rcases Bool.or_eq_true_iff.mp hb2 with h1 | h2
      · exact Or.inr (Or.inl (eq_of_beq h1).symm)
      · rcases Bool.or_eq_true_iff.mp h2 with h3 | h4
        · exact Or.inl (eq_of_beq h3).symm
        · exact Or.inr (Or.inr (eq_of_beq h4).symm)
    · intro h
      have : (windowCode c s (t / p) == code ||
          (windowCode c s (t / p - 1) == code ||
            windowCode c s (t / p + 1) == code)) = true := by
        rcases h with h | h | h
        · subst h
          simp
        · subst h
          simp
        · subst h
          simp
      rw [this]
  · intro codeT e hgen
    rw [g0] at hgen
    have hcodeT : codeT = windowCode c s (t / p) := (Prod.mk.injEq _ _ _ _  ▸ (GoRes.ok.inj hgen)).1.symm
    subst hcodeT
    constructor
    · -- time t + p: probes t + p, t, t + 2p; the second matches
      have arg1 : ((t : Int) + (p : Int)) - (p : Int) = (t : Int) := by ring
      have arg2 : ((t : Int) + (p : Int)) + (p : Int) = ((t + 2 * p : Nat) : Int) := by
        push_cast
        ring
      obtain ⟨e2, g2⟩ := generateCodeAt_ok c s (t + 2 * p) hs hb hper (by omega)
      rw [validateAt_eq c _ ((t : Int) + (p : Int)) _ _ _ _ _ _ gq (by rw [arg1]; exact g0)
        (by rw [arg2]; exact g2)]
      simp
    · -- time t - p: probes t - p, t - 2p, t; the third matches
      have arg1 : ((t : Int) - (p : Int)) - (p : Int) = ((t - 2 * p : Nat) : Int) := by
        push_cast [Nat.cast_sub ht]
        ring
      have arg2 : ((t : Int) - (p : Int)) + (p : Int) = (t : Int) := by ring
      obtain ⟨e2, g2⟩ := generateCodeAt_ok c s (t - 2 * p) hs hb hper (by omega)
      rw [validateAt_eq c _ ((t : Int) - (p : Int)) _ _ _ _ _ _ gm (by rw [arg1]; exact g2)
        (by rw [arg2]; exact g0)]
      simp

/-- Witness for C8: with the RFC config at time 90 (window 3), the code of
window 3 is accepted. -/
theorem validateAt_window_tolerance_witness :
    2 * rfcConfig.Period ≤ 90 ∧
      ValidateAt rfcConfig (windowCode rfcConfig rfcKey 3) (90 : Int) = .ok true :=
  ⟨by decide,
    (validateAt_window_tolerance rfcConfig (windowCode rfcConfig rfcKey 3) 90
      rfcKey (by decide) (by decide) (by decide) (by decide)
      (by decide)).1.mpr (Or.inr (Or.inl rfl))⟩

set_option maxRecDepth 10000 in
/-- C8 counterexample: with the RFC secret, the code generated at
T = 4607010 (window 153567) equals the code of window 153569, so
`ValidateAt` accepts it two full periods later, at `T + 2 * 30`. -/
theorem validateAt_accepts_code_two_periods_away :
    GenerateCodeAt rfcConfig 4607010 = .ok (bytesOfAscii "468457", 30) ∧
      ValidateAt rfcConfig (bytesOfAscii "468457") (4607010 + 2 * 30) = .ok true :=
  ⟨by decide, by decide⟩

/-- C10.  The counter computation `uint64(t.Unix()) / uint64(Period)` has
no zero guard: for every config with a positive whole-second period code
generation never panics (it returns a code or an ordinary error), but
`ParseURI` accepts `period=0` from a URI, and code generation for such a
config is a division-by-zero runtime panic instead of an error return. -/
theorem generateCodeAt_period_zero_panic :
    (∀ (c : Config) (t : Int), 0 < c.Period → GenerateCodeAt c t ≠ .panic) ∧
      ParseURI zeroPeriodURI = some zeroPeriodCfg ∧
      GenerateCodeAt zeroPeriodCfg 59 = .panic := by
  refine ⟨?_, by decide, by decide⟩
  intro c t hper
  unfold GenerateCodeAt
  cases hdec : base32Decode (toUpperBytes c.Secret) with
  | none => simp
  | some s =>
      simp only [if_neg (show ¬ c.Period = 0 by omega)]
      cases hg : generateHOTP c s (u64ofInt t / c.Period) with
      | none => simp [hg]
      | some code => simp [hg]

/-- Witness for C10: the RFC config has a positive period and its code
generation does not panic. -/
theorem generateCodeAt_period_zero_panic_witness :
    0 < rfcConfig.Period ∧ GenerateCodeAt rfcConfig 59 ≠ .panic :=
  ⟨by decide, generateCodeAt_period_zero_panic.1 rfcConfig 59 (by decide)⟩

/-! ### URI round-trip lemmas -/

/-- A hex escape decodes back. -/
theorem unhexDigit_hexUpperDigit : ∀ d, d < 16 →
    unhexDigit (hexUpperDigit d) = some d := by decide

/-- Unreserved bytes are none of the URI delimiters. -/
theorem alnum_mark_not_delim (cc : Nat) (h : (isAlnumByte cc || isMarkByte cc) = true) :
    cc ≠ 32 ∧ cc ≠ 35 ∧ cc ≠ 37 ∧ cc ≠ 38 ∧ cc ≠ 43 ∧ cc ≠ 47 ∧ cc ≠ 58 ∧
      cc ≠ 59 ∧ cc ≠ 61 ∧ cc ≠ 63 := by
  simp only [isAlnumByte, isMarkByte, Bool.or_eq_true, decide_eq_true_eq,
    Bool.and_eq_true, beq_iff_eq] at h
  omega

/-- The bytes kept verbatim inside a path segment are none of the scheme,
query or fragment delimiters. -/
theorem pathKeep_not_delim (cc : Nat)
    (h : (isAlnumByte cc || isMarkByte cc ||
      cc == 36 || cc == 38 || cc == 43 || cc == 58 || cc == 61 || cc == 64) = true) :
    cc ≠ 35 ∧ cc ≠ 37 ∧ cc ≠ 47 ∧ cc ≠ 63 := by
  simp only [isAlnumByte, isMarkByte, Bool.or_eq_true, decide_eq_true_eq,
    Bool.and_eq_true, beq_iff_eq] at h
  omega

/-- A non-escape byte is passed through (query mode turns `+` into space). -/
theorem unescapeB_cons_lit (mode : Bool) (cc : Nat) (h37 : cc ≠ 37) (rest : Bytes) :
    unescapeB mode (cc :: rest) =
      (unescapeB mode rest).map
        (fun t => (if mode ∧ cc = 43 then 32 else cc) :: t) := by
  match rest with
  | [] => simp [unescapeB, h37]
  | [a] => simp [unescapeB, h37]
  | a :: b :: rest2 => simp [unescapeB, h37]

/-- Decoding a percent-escape prepends the escaped byte. -/
theorem unescapeB_escByte (mode : Bool) (cc : Nat) (h : cc < 256) (rest : Bytes) :
    unescapeB mode (escByte cc ++ rest) =
      (unescapeB mode rest).map (fun t => cc :: t) := by
  have h1 : cc / 16 < 16 := by omega
  have h2 : cc % 16 < 16 := by omega
  show unescapeB mode (37 :: hexUpperDigit (cc / 16) :: hexUpperDigit (cc % 16) :: rest) = _
  simp only [unescapeB, if_pos rfl, if_true,
    unhexDigit_hexUpperDigit _ h1, unhexDigit_hexUpperDigit _ h2]
  have : 16 * (cc / 16) + cc % 16 = cc := by omega
  rw [this]

/-- Query escaping round-trips under query unescaping. -/
theorem unescapeB_queryEscape (s : Bytes) (hB : ∀ b ∈ s, b < 256) :
    unescapeB true (queryEscape s) = some s := by
  induction s with
  | nil => rfl
  | cons cc s ih =>
      have hcc : cc < 256 := hB cc (List.mem_cons_self cc s)
      have ih2 := ih (fun b hb => hB b (List.mem_cons_of_mem cc hb))
      show unescapeB true
        ((if cc = 32 then [43]
          else if shouldEscapeQuery cc then escByte cc else [cc]) ++ queryEscape s) = _
      by_cases h32 : cc = 32
      · subst h32
        rw [if_pos rfl]
        show unescapeB true (43 :: queryEscape s) = _
        rw [unescapeB_cons_lit true 43 (by omega), ih2]
        rfl
      · rw [if_neg h32]
        by_cases hesc : shouldEscapeQuery cc
        · rw [if_pos hesc, unescapeB_escByte true cc hcc, ih2]
          rfl
        · rw [if_neg hesc]
          have hk : (isAlnumByte cc || isMarkByte cc) = true := by
            have h' : shouldEscapeQuery cc = false := by
              cases hsq : shouldEscapeQuery cc
              · rfl
              · exact absurd hsq hesc
            rw [shouldEscapeQuery, Bool.not_eq_false'] at h'
            exact h'
          obtain ⟨_, _, h37, _, h43, _⟩ := alnum_mark_not_delim cc hk
          show unescapeB true (cc :: queryEscape s) = _
          rw [unescapeB_cons_lit true cc h37, ih2]
          simp [h43]

/-- Path escaping round-trips under path unescaping. -/
theorem unescapeB_pathEscape (s : Bytes) (hB : ∀ b ∈ s, b < 256) :
    unescapeB false (pathEscape s) = some s := by
  induction s with
  | nil => rfl
  | cons cc s ih =>
      have hcc : cc < 256 := hB cc (List.mem_cons_self cc s)
      have ih2 := ih (fun b hb => hB b (List.mem_cons_of_mem cc hb))
      show unescapeB false
        ((if shouldEscapePathSeg cc then escByte cc else [cc]) ++ pathEscape s) = _
      by_cases hesc : shouldEscapePathSeg cc
      · rw [if_pos hesc, unescapeB_escByte false cc hcc, ih2]
        rfl
      · rw [if_neg hesc]
        have hk : (isAlnumByte cc || isMarkByte cc ||
            cc == 36 || cc == 38 || cc == 43 || cc == 58 || cc == 61 || cc == 64) = true := by
          have h' : shouldEscapePathSeg cc = false := by
            cases hsq : shouldEscapePathSeg cc
            · rfl
            · exact absurd hsq hesc
          rw [shouldEscapePathSeg, Bool.not_eq_false'] at h'
          exact h'
        obtain ⟨_, h37, _, _⟩ := pathKeep_not_delim cc hk
        show unescapeB false (cc :: pathEscape s) = _
        rw [unescapeB_cons_lit false cc h37, ih2]
        simp

/-- Hex digits land in `0-9` or `A-F`. -/
theorem hexUpperDigit_range : ∀ d, d < 16 →
    (48 ≤ hexUpperDigit d ∧ hexUpperDigit d ≤ 57) ∨
      (65 ≤ hexUpperDigit d ∧ hexUpperDigit d ≤ 70) := by decide

/-- Classification of the bytes a query escape can produce. -/
theorem mem_queryEscape (s : Bytes) (hB : ∀ b ∈ s, b < 256) (x : Nat)
    (hx : x ∈ queryEscape s) :
    x = 43 ∨ x = 37 ∨ (48 ≤ x ∧ x ≤ 57) ∨ (65 ≤ x ∧ x ≤ 70) ∨
      (isAlnumByte x || isMarkByte x) = true := by
  induction s with
  | nil => cases hx
  | cons cc s ih =>
      have hcc : cc < 256 := hB cc (List.mem_cons_self cc s)
      rw [show queryEscape (cc :: s) =
        (if cc = 32 then [43]
          else if shouldEscapeQuery cc then escByte cc else [cc]) ++ queryEscape s
        from rfl] at hx
      rcases List.mem_append.mp hx with hl | hr
      · by_cases h32 : cc = 32
        · rw [if_pos h32] at hl
          rcases List.mem_singleton.mp hl with rfl
          exact Or.inl rfl
        · rw [if_neg h32] at hl
          by_cases hesc : shouldEscapeQuery cc
          · rw [if_pos hesc] at hl
            simp only [escByte, List.mem_cons, List.not_mem_nil, or_false] at hl
            rcases hl with rfl | rfl | rfl
            · exact Or.inr (Or.inl rfl)
            · rcases hexUpperDigit_range (cc / 16) (by omega) with h | h
              · exact Or.inr (Or.inr (Or.inl h))
              · exact Or.inr (Or.inr (Or.inr (Or.inl h)))
            · rcases hexUpperDigit_range (cc % 16) (by omega) with h | h
              · exact Or.inr (Or.inr (Or.inl h))
              · exact Or.inr (Or.inr (Or.inr (Or.inl h)))
          · rw [if_neg hesc] at hl
            rcases List.mem_singleton.mp hl with rfl
            refine Or.inr (Or.inr (Or.inr (Or.inr ?_)))
            cases hsq : shouldEscapeQuery x
            · rw [shouldEscapeQuery, Bool.not_eq_false'] at hsq
              exact hsq
            · exact absurd hsq hesc
      · exact ih (fun b hb => hB b (List.mem_cons_of_mem cc hb)) hr

/-- No byte of a query escape is one of `# & ; = ?`. -/
theorem queryEscape_no_delim (s : Bytes) (hB : ∀ b ∈ s, b < 256) (x : Nat)
    (hx : x ∈ queryEscape s) :
    x ≠ 35 ∧ x ≠ 38 ∧ x ≠ 59 ∧ x ≠ 61 ∧ x ≠ 63 := by
  rcases mem_queryEscape s hB x hx with h | h | h | h | h
  · omega
  · omega
  · omega
  · omega
  · have := alnum_mark_not_delim x h
    omega

/-- Classification of the bytes a path escape can produce. -/
theorem mem_pathEscape (s : Bytes) (hB : ∀ b ∈ s, b < 256) (x : Nat)
    (hx : x ∈ pathEscape s) :
    x = 37 ∨ (48 ≤ x ∧ x ≤ 57) ∨ (65 ≤ x ∧ x ≤ 70) ∨
      (isAlnumByte x || isMarkByte x ||
        x == 36 || x == 38 || x == 43 || x == 58 || x == 61 || x == 64) = true := by
  induction s with
  | nil => cases hx
  | cons cc s ih =>
      have hcc : cc < 256 := hB cc (List.mem_cons_self cc s)
      rw [show pathEscape (cc :: s) =
        (if shouldEscapePathSeg cc then escByte cc else [cc]) ++ pathEscape s
        from rfl] at hx
      rcases List.mem_append.mp hx with hl | hr
      · by_cases hesc : shouldEscapePathSeg cc
        · rw [if_pos hesc] at hl
          simp only [escByte, List.mem_cons, List.not_mem_nil, or_false] at hl
          rcases hl with rfl | rfl | rfl
          · exact Or.inl rfl
          · rcases hexUpperDigit_range (cc / 16) (by omega) with h | h
            · exact Or.inr (Or.inl h)
            · exact Or.inr (Or.inr (Or.inl h))
          · rcases hexUpperDigit_range (cc % 16) (by omega) with h | h
            · exact Or.inr (Or.inl h)
            · exact Or.inr (Or.inr (Or.inl h))
        · rw [if_neg hesc] at hl
          rcases List.mem_singleton.mp hl with rfl
          refine Or.inr (Or.inr (Or.inr ?_))
          cases hsq : shouldEscapePathSeg x
          · rw [shouldEscapePathSeg, Bool.not_eq_false'] at hsq
            exact hsq
          · exact absurd hsq hesc
      · exact ih (fun b hb => hB b (List.mem_cons_of_mem cc hb)) hr

/-- No byte of a path escape is `#` or `?`. -/
theorem pathEscape_no_delim (s : Bytes) (hB : ∀ b ∈ s, b < 256) (x : Nat)
    (hx : x ∈ pathEscape s) : x ≠ 35 ∧ x ≠ 63 := by
  rcases mem_pathEscape s hB x hx with h | h | h | h
  · omega
  · omega
  · omega
  · have := pathKeep_not_delim x h
    omega

/-- `strings.Cut` finds nothing when the separator is absent. -/
theorem cutB_of_not_mem (sep : Nat) (l : Bytes) (h : sep ∉ l) :
    cutB sep l = (l, none) := by
  induction l with
  | nil => rfl
  | cons c rest ih =>
      have hc : ¬ c = sep := fun hc => h (hc ▸ List.mem_cons_self c rest)
      have hm : sep ∉ rest := fun hm => h (List.mem_cons_of_mem c hm)
      simp [cutB, hc, ih hm]

/-- `strings.Cut` splits at the first separator. -/
theorem cutB_append (sep : Nat) (pre post : Bytes) (h : sep ∉ pre) :
    cutB sep (pre ++ sep :: post) = (pre, some post) := by
  induction pre with
  | nil => simp [cutB]
  | cons c rest ih =>
      have hc : ¬ c = sep := fun hc => h (hc ▸ List.mem_cons_self c rest)
      have hm : sep ∉ rest := fun hm => h (List.mem_cons_of_mem c hm)
      simp [cutB, hc, ih hm]

/-- Splitting a separator-free string is the single segment. -/
theorem splitSep_of_not_mem (sep : Nat) (l : Bytes) (h : sep ∉ l) :
    splitSep sep l = [l] := by
  induction l with
  | nil => rfl
  | cons c rest ih =>
      have hc : ¬ c = sep := fun hc => h (hc ▸ List.mem_cons_self c rest)
      have hm : sep ∉ rest := fun hm => h (List.mem_cons_of_mem c hm)
      simp [splitSep, hc, ih hm]

/-- Splitting past a leading separator-free segment. -/
theorem splitSep_append (sep : Nat) (x r : Bytes) (h : sep ∉ x) :
    splitSep sep (x ++ sep :: r) = x :: splitSep sep r := by
  induction x with
  | nil => simp [splitSep]
  | cons c rest ih =>
      have hc : ¬ c = sep := fun hc => h (hc ▸ List.mem_cons_self c rest)
      have hm : sep ∉ rest := fun hm => h (List.mem_cons_of_mem c hm)
      simp [splitSep, hc, ih hm]

/-- Splitting inverts joining for separator-free segments. -/
theorem splitSep_joinSep (sep : Nat) (l : List Bytes) (hne : l ≠ [])
    (h : ∀ x ∈ l, sep ∉ x) : splitSep sep (joinSep sep l) = l := by
  induction l with
  | nil => exact absurd rfl hne
  | cons x rest ih =>
      cases rest with
      | nil => exact splitSep_of_not_mem sep x (h x (List.mem_cons_self x []))
      | cons y rest2 =>
          rw [joinSep, splitSep_append sep x _ (h x (List.mem_cons_self x _)),
            ih (by simp) (fun z hz => h z (List.mem_cons_of_mem x hz))]

/-- Decimal rendering produces a nonempty all-digit string that `Atoi`
reads back. -/
theorem natDecAux_spec : ∀ fuel n, n ≤ fuel →
    natDecAux fuel n ≠ [] ∧ (∀ cc ∈ natDecAux fuel n, 48 ≤ cc ∧ cc ≤ 57) ∧
      (natDecAux fuel n).foldl (fun acc cc => acc * 10 + (cc - 48)) 0 = n := by
  intro fuel
  induction fuel with
  | zero =>
      intro n hn
      have : n = 0 := by omega
      subst this
      refine ⟨by simp [natDecAux], ?_, by simp [natDecAux]⟩
      intro cc hcc
      simp [natDecAux] at hcc
      omega
  | succ fuel ih =>
      intro n hn
      by_cases h10 : n < 10
      · refine ⟨by simp [natDecAux, h10], ?_, by simp [natDecAux, h10]⟩
        intro cc hcc
        simp [natDecAux, h10] at hcc
        omega
      · have hdiv : n / 10 ≤ fuel := by
          have := Nat.div_lt_self (by omega : 0 < n) (by omega : 1 < 10)
          omega
        obtain ⟨ih1, ih2, ih3⟩ := ih (n / 10) hdiv
        rw [show natDecAux (fuel + 1) n =
          natDecAux fuel (n / 10) ++ [48 + n % 10] from by
            simp [natDecAux, h10]]
        refine ⟨by simp, ?_, ?_⟩
        · intro cc hcc
          rcases List.mem_append.mp hcc with hcl | hcr
          · exact ih2 cc hcl
          · rcases List.mem_singleton.mp hcr with rfl
            omega
        · rw [List.foldl_append, ih3]
          show n / 10 * 10 + (48 + n % 10 - 48) = n
          omega

/-- `strconv.Atoi` reads back `strconv.Itoa`. -/
theorem goAtoiNat_natDecDigits (n : Nat) : goAtoiNat (natDecDigits n) = some n := by
  obtain ⟨h1, h2, h3⟩ := natDecAux_spec n n le_rfl
  unfold goAtoiNat natDecDigits
  rw [if_pos ⟨h1, List.all_eq_true.mpr fun c hc =>
    decide_eq_true (h2 c hc)⟩]
  exact congrArg some h3

/-- Decimal renderings are nonempty. -/
theorem natDecDigits_ne_nil (n : Nat) : natDecDigits n ≠ [] :=
  (natDecAux_spec n n le_rfl).1

/-- Decimal renderings are bytes. -/
theorem natDecDigits_lt (n : Nat) : ∀ b ∈ natDecDigits n, b < 256 := by
  intro b hb
  have := (natDecAux_spec n n le_rfl).2.1 b hb
  omega

/-- `mem_joinSep`: a byte of a joined list is the separator or from a
segment. -/
theorem mem_joinSep (sep : Nat) (L : List Bytes) (x : Nat)
    (hx : x ∈ joinSep sep L) : x = sep ∨ ∃ e ∈ L, x ∈ e := by
  induction L with
  | nil => cases hx
  | cons e rest ih =>
      cases rest with
      | nil => exact Or.inr ⟨e, List.mem_cons_self e [], hx⟩
      | cons f rest2 =>
          rw [joinSep] at hx
          rcases List.mem_append.mp hx with h | h
          · exact Or.inr ⟨e, List.mem_cons_self e _, h⟩
          · rcases List.mem_cons.mp h with h | h
            · exact Or.inl h
            · rcases ih h with h | ⟨g, hg, hxg⟩
              · exact Or.inl h
              · exact Or.inr ⟨g, List.mem_cons_of_mem e hg, hxg⟩

/-- `url.Parse` on the exact shape `ToURI` produces:
`otpauth://totp/<escaped-label>?<query>`. -/
theorem urlParse_shape (PE Q label : Bytes)
    (hPE35 : (35 : Nat) ∉ PE) (hPE63 : (63 : Nat) ∉ PE)
    (hQ35 : (35 : Nat) ∉ Q)
    (hun : unescapeB false PE = some label) :
    urlParse (bytesOfAscii "otpauth://totp/" ++ PE ++ 63 :: Q) =
      some (bytesOfAscii "otpauth", bytesOfAscii "totp", 47 :: label, Q) := by
  have h35 : (35 : Nat) ∉ bytesOfAscii "otpauth://totp/" ++ PE ++ 63 :: Q := by
    intro hx
    rcases List.mem_append.mp hx with h | h
    · rcases List.mem_append.mp h with h | h
      · revert h
        decide
      · exact hPE35 h
    · rcases List.mem_cons.mp h with h | h
      · cases h
      · exact hQ35 h
  have h63pre : (63 : Nat) ∉ bytesOfAscii "otpauth://totp/" ++ PE := by
    intro hx
    rcases List.mem_append.mp hx with h | h
    · revert h
      decide
    · exact hPE63 h
  have hA : bytesOfAscii "otpauth://totp/" =
      bytesOfAscii "otpauth" ++ 58 :: (47 :: 47 :: (bytesOfAscii "totp" ++ [47])) := by
    decide
  have h58 : (58 : Nat) ∉ bytesOfAscii "otpauth" := by decide
  have h47 : (47 : Nat) ∉ bytesOfAscii "totp" := by decide
  simp only [urlParse, cutB_of_not_mem 35 _ h35, cutB_append 63 _ _ h63pre]
  simp only [hA, List.append_assoc, List.cons_append, List.singleton_append]
  simp only [cutB_append 58 _ _ h58]
  simp only [cutB_append 47 _ _ h47, unescapeB_cons_lit false 47 (by omega),
    List.nil_append, Option.getD_some,
    show toLowerBytes (bytesOfAscii "otpauth") = bytesOfAscii "otpauth" from by decide]
  rw [hun]
  simp

/-- None of `# & ; ?` occurs in an encoded `key=value` item. -/
theorem item_not_mem (k v : Bytes) (hkB : ∀ b ∈ k, b < 256)
    (hvB : ∀ b ∈ v, b < 256) (x : Nat)
    (hx : x = 35 ∨ x = 38 ∨ x = 59 ∨ x = 63) :
    x ∉ queryEscape k ++ 61 :: queryEscape v := by
  intro hmem
  rcases List.mem_append.mp hmem with h | h
  · have := queryEscape_no_delim k hkB x h
    omega
  · rcases List.mem_cons.mp h with h | h
    · omega
    · have := queryEscape_no_delim v hvB x h
      omega

/-- An encoded `key=value` item parses back to its pair. -/
theorem parsePair_item (k v : Bytes) (hkB : ∀ b ∈ k, b < 256)
    (hvB : ∀ b ∈ v, b < 256) :
    parsePair (queryEscape k ++ 61 :: queryEscape v) = some (k, v) := by
  have h59 : (59 : Nat) ∉ queryEscape k ++ 61 :: queryEscape v :=
    item_not_mem k v hkB hvB 59 (by omega)
  have h61 : (61 : Nat) ∉ queryEscape k := fun hx =>
    (queryEscape_no_delim k hkB 61 hx).2.2.2.1 rfl
  unfold parsePair
  rw [if_neg (by
    intro hcon
    exact h59 (List.mem_of_elem_eq_true hcon))]
  rw [if_neg (by simp), cutB_append 61 _ _ h61]
  simp only [Option.getD_some, unescapeB_queryEscape k hkB,
    unescapeB_queryEscape v hvB]

/-- C9 (amended).  For every TOTP config with nonempty secret, nonempty
colon-free issuer, nonempty account, nonempty upper-case non-default
algorithm, and non-default period and digits (all strings being byte
strings), parsing the URI produced by `ToURI` reproduces the secret,
issuer, account, period, digits and algorithm of the original config
exactly. -/
theorem parseURI_toURI (c : Config)
    (hsec : c.Secret ≠ []) (hsecB : ∀ b ∈ c.Secret, b < 256)
    (hiss : c.Issuer ≠ []) (hissB : ∀ b ∈ c.Issuer, b < 256)
    (hissC : (58 : Nat) ∉ c.Issuer)
    (hacc : c.Account ≠ []) (haccB : ∀ b ∈ c.Account, b < 256)
    (halgNe : c.Algorithm ≠ []) (halgB : ∀ b ∈ c.Algorithm, b < 256)
    (halg : c.Algorithm ≠ sha1Tag) (halgU : toUpperBytes c.Algorithm = c.Algorithm)
    (hper : c.Period ≠ 30) (hdig : c.Digits ≠ 6) :
    ParseURI (ToURI c) = some c := by
  obtain ⟨sec, per, dig, alg, iss, acc⟩ := c
  simp only [] at hper hdig
  have hto : ToURI ⟨sec, per, dig, alg, iss, acc⟩ =
      bytesOfAscii "otpauth://totp/" ++ pathEscape (iss ++ 58 :: acc) ++
        63 :: joinSep 38 [
          queryEscape (bytesOfAscii "algorithm") ++ 61 :: queryEscape alg,
          queryEscape (bytesOfAscii "digits") ++ 61 :: queryEscape (natDecDigits dig),
          queryEscape (bytesOfAscii "issuer") ++ 61 :: queryEscape iss,
          queryEscape (bytesOfAscii "period") ++ 61 :: queryEscape (natDecDigits per),
          queryEscape (bytesOfAscii "secret") ++ 61 :: queryEscape sec] := by
    simp only [ToURI, if_pos halg, if_pos hper, if_pos hdig, if_pos hiss,
      if_pos (And.intro hiss hacc), List.singleton_append, List.cons_append,
      List.nil_append, List.map_cons, List.map_nil, List.append_assoc]
  have hkAB : ∀ b ∈ bytesOfAscii "algorithm", b < 256 := by decide
  have hkDB : ∀ b ∈ bytesOfAscii "digits", b < 256 := by decide
  have hkIB : ∀ b ∈ bytesOfAscii "issuer", b < 256 := by decide
  have hkPB : ∀ b ∈ bytesOfAscii "period", b < 256 := by decide
  have hkSB : ∀ b ∈ bytesOfAscii "secret", b < 256 := by decide
  have hdigB := natDecDigits_lt dig
  have hperB := natDecDigits_lt per
  have hlabelB : ∀ b ∈ iss ++ 58 :: acc, b < 256 := by
    intro b hb
    rcases List.mem_append.mp hb with h | h
    · exact hissB b h
    · rcases List.mem_cons.mp h with rfl | h
      · omega
      · exact haccB b h
  have hLfree : ∀ e ∈ [
      queryEscape (bytesOfAscii "algorithm") ++ 61 :: queryEscape alg,
      queryEscape (bytesOfAscii "digits") ++ 61 :: queryEscape (natDecDigits dig),
      queryEscape (bytesOfAscii "issuer") ++ 61 :: queryEscape iss,
      queryEscape (bytesOfAscii "period") ++ 61 :: queryEscape (natDecDigits per),
      queryEscape (bytesOfAscii "secret") ++ 61 :: queryEscape sec],
      ∀ x : Nat, (x = 35 ∨ x = 38 ∨ x = 59 ∨ x = 63) → x ∉ e := by
    intro e he x hx
    simp only [List.mem_cons, List.not_mem_nil, or_false] at he
    rcases he with rfl | rfl | rfl | rfl | rfl
    · exact item_not_mem _ _ hkAB halgB x hx
    · exact item_not_mem _ _ hkDB hdigB x hx
    · exact item_not_mem _ _ hkIB hissB x hx
    · exact item_not_mem _ _ hkPB hperB x hx
    · exact item_not_mem _ _ hkSB hsecB x hx
  have hQ35 : (35 : Nat) ∉ joinSep 38 [
      queryEscape (bytesOfAscii "algorithm") ++ 61 :: queryEscape alg,
      queryEscape (bytesOfAscii "digits") ++ 61 :: queryEscape (natDecDigits dig),
      queryEscape (bytesOfAscii "issuer") ++ 61 :: queryEscape iss,
      queryEscape (bytesOfAscii "period") ++ 61 :: queryEscape (natDecDigits per),
      queryEscape (bytesOfAscii "secret") ++ 61 :: queryEscape sec] := by
    intro hx
    rcases mem_joinSep 38 _ 35 hx with h | ⟨e, he, hxe⟩
    · omega
    · exact hLfree e he 35 (by omega) hxe
  have hPE35 : (35 : Nat) ∉ pathEscape (iss ++ 58 :: acc) := fun hx =>
    (pathEscape_no_delim _ hlabelB 35 hx).1 rfl
  have hPE63 : (63 : Nat) ∉ pathEscape (iss ++ 58 :: acc) := fun hx =>
    (pathEscape_no_delim _ hlabelB 63 hx).2 rfl
  have hu : urlParse (ToURI ⟨sec, per, dig, alg, iss, acc⟩) =
      some (bytesOfAscii "otpauth", bytesOfAscii "totp",
        47 :: (iss ++ 58 :: acc), joinSep 38 [
          queryEscape (bytesOfAscii "algorithm") ++ 61 :: queryEscape alg,
          queryEscape (bytesOfAscii "digits") ++ 61 :: queryEscape (natDecDigits dig),
          queryEscape (bytesOfAscii "issuer") ++ 61 :: queryEscape iss,
          queryEscape (bytesOfAscii "period") ++ 61 :: queryEscape (natDecDigits per),
          queryEscape (bytesOfAscii "secret") ++ 61 :: queryEscape sec]) := by
    rw [hto]
    exact urlParse_shape _ _ _ hPE35 hPE63 hQ35 (unescapeB_pathEscape _ hlabelB)
  have hQne : joinSep 38 [
      queryEscape (bytesOfAscii "algorithm") ++ 61 :: queryEscape alg,
      queryEscape (bytesOfAscii "digits") ++ 61 :: queryEscape (natDecDigits dig),
      queryEscape (bytesOfAscii "issuer") ++ 61 :: queryEscape iss,
      queryEscape (bytesOfAscii "period") ++ 61 :: queryEscape (natDecDigits per),
      queryEscape (bytesOfAscii "secret") ++ 61 :: queryEscape sec] ≠ [] := by
    simp [joinSep]
  have hpq : parseQuery (joinSep 38 [
      queryEscape (bytesOfAscii "algorithm") ++ 61 :: queryEscape alg,
      queryEscape (bytesOfAscii "digits") ++ 61 :: queryEscape (natDecDigits dig),
      queryEscape (bytesOfAscii "issuer") ++ 61 :: queryEscape iss,
      queryEscape (bytesOfAscii "period") ++ 61 :: queryEscape (natDecDigits per),
      queryEscape (bytesOfAscii "secret") ++ 61 :: queryEscape sec]) = [
        (bytesOfAscii "algorithm", alg),
        (bytesOfAscii "digits", natDecDigits dig),
        (bytesOfAscii "issuer", iss),
        (bytesOfAscii "period", natDecDigits per),
        (bytesOfAscii "secret", sec)] := by
    unfold parseQuery
    rw [if_neg hQne, splitSep_joinSep 38 _ (by simp)
      (fun e he hmem => hLfree e he 38 (by omega) hmem)]
    simp only [List.filterMap_cons, List.filterMap_nil,
      parsePair_item _ _ hkAB halgB, parsePair_item _ _ hkDB hdigB,
      parsePair_item _ _ hkIB hissB, parsePair_item _ _ hkPB hperB,
      parsePair_item _ _ hkSB hsecB]
  unfold ParseURI
  rw [hu]
  simp only [hpq, getFirst, List.find?,
    show ((bytesOfAscii "algorithm" : Bytes) == bytesOfAscii "secret") = false by decide,
    show ((bytesOfAscii "digits" : Bytes) == bytesOfAscii "secret") = false by decide,
    show ((bytesOfAscii "issuer" : Bytes) == bytesOfAscii "secret") = false by decide,
    show ((bytesOfAscii "period" : Bytes) == bytesOfAscii "secret") = false by decide,
    show ((bytesOfAscii "secret" : Bytes) == bytesOfAscii "secret") = true by decide,
    show ((bytesOfAscii "algorithm" : Bytes) == bytesOfAscii "issuer") = false by decide,
    show ((bytesOfAscii "digits" : Bytes) == bytesOfAscii "issuer") = false by decide,
    show ((bytesOfAscii "issuer" : Bytes) == bytesOfAscii "issuer") = true by decide,
    show ((bytesOfAscii "algorithm" : Bytes) == bytesOfAscii "period") = false by decide,
    show ((bytesOfAscii "digits" : Bytes) == bytesOfAscii "period") = false by decide,
    show ((bytesOfAscii "issuer" : Bytes) == bytesOfAscii "period") = false by decide,
    show ((bytesOfAscii "period" : Bytes) == bytesOfAscii "period") = true by decide,
    show ((bytesOfAscii "algorithm" : Bytes) == bytesOfAscii "digits") = false by decide,
    show ((bytesOfAscii "digits" : Bytes) == bytesOfAscii "digits") = true by decide,
    show ((bytesOfAscii "algorithm" : Bytes) == bytesOfAscii "algorithm") = true by decide]
  simp only [hsec, hiss, halgNe, natDecDigits_ne_nil, goAtoiNat_natDecDigits,
    halgU, ne_eq, not_false_eq_true, if_true, ite_not, if_false,
    cutB_append 58 iss acc hissC]
  simp [hsec, hiss, hacc, halgNe, cutB_append 58 iss acc hissC, hissC,
    DefaultConfig]

/-- Witness for C9 at a concrete non-default config. -/
theorem parseURI_toURI_witness :
    (roundTripCfg.Issuer ≠ [] ∧ (58 : Nat) ∉ roundTripCfg.Issuer ∧
      roundTripCfg.Period ≠ 30 ∧ roundTripCfg.Digits ≠ 6) ∧
      ParseURI (ToURI roundTripCfg) = some roundTripCfg :=
  ⟨⟨by decide, by decide, by decide, by decide⟩,
    parseURI_toURI roundTripCfg (by decide) (by decide) (by decide) (by decide)
      (by decide) (by decide) (by decide) (by decide) (by decide) (by decide)
      (by decide) (by decide) (by decide)⟩

/-- C9 counterexample: with issuer `"A:B"` (a colon in the issuer), the
label `"A:B:C"` splits at its first colon on parsing, so the account comes
back as `"B:C"` instead of `"C"` — the URI round trip does not reproduce
the account. -/
theorem parseURI_toURI_colon_issuer :
    ParseURI (ToURI colonIssuerCfg) =
      some { colonIssuerCfg with Account := bytesOfAscii "B:C" } ∧
      ParseURI (ToURI colonIssuerCfg) ≠ some colonIssuerCfg :=
  ⟨by decide, by decide⟩

end PassManager
